import Mathlib

/-!
Verification development for the react-error-sentinel capture-and-delivery
pipeline.  The definitions below are shallow embeddings of the TypeScript
sources: `src/core/queue.ts` (ErrorQueue), the Transport class
(`send`, `isRetryableError`, `calculateBackoffDelay`), the fingerprint and
deduplication engine (`generateFingerprint`, `normalizeMessage`,
`hashString`, `DeduplicationManager`), `src/core/sanitizer.ts`
(DataSanitizer) together with `safeClone` from `src/utils/helpers.ts`, and
the orchestration in `src/core/tracker.ts` (`init`, `shutdown`,
`sendQueuedEvents`).  Machine integers are modelled as `Nat` with explicit
reductions modulo `2 ^ 32` where the JavaScript `^` / `>>> 0` operators
truncate; JavaScript timestamps are `Nat` milliseconds; fallible or
external effects (HTTP responses, `Math.random`, the clock) are passed in
explicitly as oracle arguments.
-/

/-- The unit of delivery (`ErrorEvent` in `src/types`), reduced to the
fields the queue and transport logic inspect: the generated identifier and
the epoch-millisecond timestamp. -/
structure ErrorEvent where
  event_id : String
  timestamp : Nat
  deriving DecidableEq, Repr

/-- In-memory state of `ErrorQueue` (`src/core/queue.ts`): the backing
array and the configured maximum size (constructor default 50).  The
localStorage persistence mirror is not modelled; every public mutation
rewrites it with the same contents as `queue`. -/
structure ErrorQueue where
  queue : List ErrorEvent
  maxSize : Nat
  deriving DecidableEq, Repr

/-- `ErrorQueue.add`: push the event, then if the length exceeds
`maxSize`, `shift()` the oldest entry (drop the head). -/
def ErrorQueue.add (q : ErrorQueue) (event : ErrorEvent) : ErrorQueue :=
  let pushed := q.queue ++ [event]
  if pushed.length > q.maxSize then
    { q with queue := pushed.tail }
  else
    { q with queue := pushed }

/-- `ErrorQueue.getAll`: snapshot of the queue contents. -/
def ErrorQueue.getAll (q : ErrorQueue) : List ErrorEvent :=
  q.queue

/-- `ErrorQueue.clear`: empty the queue. -/
def ErrorQueue.clear (q : ErrorQueue) : ErrorQueue :=
  { q with queue := [] }

/-- `ErrorQueue.remove(eventIds)`: build a `Set` of the ids and keep the
entries whose `event_id` is not in the set. -/
def ErrorQueue.remove (q : ErrorQueue) (eventIds : List String) : ErrorQueue :=
  { q with queue := q.queue.filter (fun event => ¬ eventIds.contains event.event_id) }

/-- Folding a sequence of `add` calls from any state whose length respects
the bound leaves exactly the suffix of length `maxSize` of everything ever
inserted (FIFO eviction of the oldest on each overflowing insert). -/
theorem ErrorQueue.foldl_add_eq_drop (M : Nat) (es : List ErrorEvent) :
    ∀ init : List ErrorEvent, init.length ≤ M →
      (es.foldl ErrorQueue.add ⟨init, M⟩).queue =
        (init ++ es).drop ((init ++ es).length - M) := by
  induction es with
  | nil =>
    intro init hinit
    simp [Nat.sub_eq_zero_of_le hinit]
  | cons e es ih =>
    intro init hinit
    have hstep : ErrorQueue.add ⟨init, M⟩ e =
        if (init ++ [e]).length > M then
          (⟨(init ++ [e]).tail, M⟩ : ErrorQueue)
        else ⟨init ++ [e], M⟩ := by
      simp [ErrorQueue.add]
    by_cases hover : (init ++ [e]).length > M
    · -- overflow: init.length = M, the oldest entry is evicted
      have hlen : init.length = M := by
        simp at hover
        omega
      have htail_len : (init ++ [e]).tail.length ≤ M := by
        simp [List.length_tail]
        omega
      have := ih ((init ++ [e]).tail) htail_len
      simp only [List.foldl_cons, hstep, if_pos hover]
      rw [this]
      have happ : (init ++ [e]).tail ++ es = (init ++ e :: es).tail := by
        cases init with
        | nil => simp
        | cons a rest => simp
      rw [happ]
      have hne : init ++ e :: es ≠ [] := by simp
      rw [List.drop_tail]
      congr 1
      have h1 : (init ++ e :: es).tail.length = init.length + es.length := by
        simp [List.length_tail]
      have h2 : (init ++ e :: es).length = init.length + (es.length + 1) := by
        simp
      omega
    · -- still under the bound
      have hunder : (init ++ [e]).length ≤ M := by omega
      have := ih (init ++ [e]) hunder
      simp only [List.foldl_cons, hstep, if_neg hover]
      rw [this]
      simp [List.append_assoc]

/-- C9: for every sequence of `add` calls longer than the configured
maximum size `M`, starting from any queue state within the bound, the
queue afterwards holds exactly the last `M` added events in insertion
order, and after every intermediate `add` the size is at most `M`. -/
theorem C9_queue_bound (M : Nat) (init es : List ErrorEvent)
    (hinit : init.length ≤ M) (hlen : M < es.length) :
    (es.foldl ErrorQueue.add ⟨init, M⟩).queue = es.drop (es.length - M)
    ∧ ∀ n : Nat, ((es.take n).foldl ErrorQueue.add ⟨init, M⟩).queue.length ≤ M := by
  constructor
  · rw [ErrorQueue.foldl_add_eq_drop M es init hinit]
    have hsplit : (init ++ es).length - M = init.length + (es.length - M) := by
      simp
      omega
    rw [hsplit, ← List.drop_drop]
    congr 1
    exact List.drop_left init es
  · intro n
    rw [ErrorQueue.foldl_add_eq_drop M (es.take n) init hinit]
    have := List.length_drop ((init ++ es.take n).length - M) (init ++ es.take n)
    omega

/-- Concrete run of C9: three inserts into a queue of capacity 2 keep the
last two events. -/
theorem C9_queue_bound_witness :
    (([⟨"a", 1⟩, ⟨"b", 2⟩, ⟨"c", 3⟩] : List ErrorEvent).foldl
        ErrorQueue.add ⟨[], 2⟩).queue =
      ([⟨"a", 1⟩, ⟨"b", 2⟩, ⟨"c", 3⟩] : List ErrorEvent).drop 1
    ∧ ∀ n : Nat,
        ((([⟨"a", 1⟩, ⟨"b", 2⟩, ⟨"c", 3⟩] : List ErrorEvent).take n).foldl
            ErrorQueue.add ⟨[], 2⟩).queue.length ≤ 2 :=
  C9_queue_bound 2 [] [⟨"a", 1⟩, ⟨"b", 2⟩, ⟨"c", 3⟩] (by decide) (by decide)

/-- C10: `remove(eventIds)` deletes exactly the entries whose id occurs in
the list: membership is characterised, the result is a sublist of the
original (relative order and the entries themselves unchanged), and the
multiplicity of every surviving entry is preserved. -/
theorem C10_remove_frame (q : ErrorQueue) (eventIds : List String) :
    (∀ e : ErrorEvent,
        e ∈ (q.remove eventIds).queue ↔ e ∈ q.queue ∧ e.event_id ∉ eventIds)
    ∧ (q.remove eventIds).queue.Sublist q.queue
    ∧ (∀ e : ErrorEvent, e.event_id ∉ eventIds →
        (q.remove eventIds).queue.count e = q.queue.count e) := by
  refine ⟨?_, ?_, ?_⟩
  · intro e
    simp [ErrorQueue.remove, List.mem_filter]
  · exact List.filter_sublist _
  · intro e he
    unfold ErrorQueue.remove
    simp only
    rw [List.count_filter]
    simpa using he

/-- Concrete run of C10 at a three-entry queue and a one-id removal
list. -/
theorem C10_remove_frame_witness :
    (∀ e : ErrorEvent,
        e ∈ ((⟨[⟨"a", 1⟩, ⟨"b", 2⟩, ⟨"c", 3⟩], 50⟩ : ErrorQueue).remove ["b"]).queue
          ↔ e ∈ (⟨[⟨"a", 1⟩, ⟨"b", 2⟩, ⟨"c", 3⟩], 50⟩ : ErrorQueue).queue
            ∧ e.event_id ∉ ["b"])
    ∧ ((⟨[⟨"a", 1⟩, ⟨"b", 2⟩, ⟨"c", 3⟩], 50⟩ : ErrorQueue).remove ["b"]).queue.Sublist
        (⟨[⟨"a", 1⟩, ⟨"b", 2⟩, ⟨"c", 3⟩], 50⟩ : ErrorQueue).queue
    ∧ (∀ e : ErrorEvent, e.event_id ∉ ["b"] →
        ((⟨[⟨"a", 1⟩, ⟨"b", 2⟩, ⟨"c", 3⟩], 50⟩ : ErrorQueue).remove ["b"]).queue.count e
          = (⟨[⟨"a", 1⟩, ⟨"b", 2⟩, ⟨"c", 3⟩], 50⟩ : ErrorQueue).queue.count e) :=
  C10_remove_frame ⟨[⟨"a", 1⟩, ⟨"b", 2⟩, ⟨"c", 3⟩], 50⟩ ["b"]

/-- Result object of `Transport.send` (`TransportResponse` in
`src/types`): success flag, optional accepted event ids, optional error
message. -/
structure TransportResponse where
  success : Bool
  eventIds : Option (List String) := none
  error : Option String := none
  deriving DecidableEq, Repr

/-- What one HTTP attempt inside `Transport.send` observes: either a
completed response (status code, body text, the optional `event_ids`
field of the parsed JSON body, and the optional numeric `Retry-After`
header in seconds), or a network-level exception with a message. -/
inductive AttemptOutcome where
  | response (status : Nat) (bodyText : String)
      (bodyEventIds : Option (List String)) (retryAfterSeconds : Option Nat)
  | networkError (message : String)
  deriving DecidableEq, Repr

/-- The retry configuration of the Transport class; the auth strategy,
token and payload key only shape the HTTP request itself and are not
modelled.  Defaults: 3 attempts, base delay 1000ms, cap 30000ms. -/
structure Transport where
  endpoint : String
  maxAttempts : Nat := 3
  baseDelayMs : Nat := 1000
  maxDelayMs : Nat := 30000
  deriving DecidableEq, Repr

/-- `Transport.isRetryableError`: 5xx, 429 and 408 are retryable, every
other status is not. -/
def Transport.isRetryableError (status : Nat) : Bool :=
  if 500 ≤ status ∧ status < 600 then true
  else if status = 429 then true
  else if status = 408 then true
  else false

/-- `Transport.calculateBackoffDelay`: exponential delay
`baseDelayMs * 2 ^ attempt` plus `Math.random() * 0.3` of it as jitter,
floored, then capped at `maxDelayMs`.  The `Math.random()` draw is the
explicit argument `rand`. -/
def Transport.calculateBackoffDelay (baseDelayMs maxDelayMs attempt : Nat)
    (rand : ℚ) : Nat :=
  let exponentialDelay : ℚ := (baseDelayMs : ℚ) * 2 ^ attempt
  let jitter : ℚ := rand * (3 / 10) * exponentialDelay
  min (⌊exponentialDelay + jitter⌋.toNat) maxDelayMs

/-- The delay chosen before a retry of a completed-but-failed response
(`send`, the block after `isRetryableError`): the backoff delay, unless a
numeric `Retry-After` header is present, in which case
`min(retryAfterSeconds * 1000, maxDelayMs)` overrides it. -/
def Transport.attemptDelay (baseDelayMs maxDelayMs attempt : Nat)
    (rand : ℚ) (retryAfterSeconds : Option Nat) : Nat :=
  match retryAfterSeconds with
  | some r => min (r * 1000) maxDelayMs
  | none => Transport.calculateBackoffDelay baseDelayMs maxDelayMs attempt rand

/-- The error text `HTTP <status>: <body>` built for non-ok responses. -/
def httpErrorText (status : Nat) (bodyText : String) : String :=
  "HTTP " ++ toString status ++ ": " ++ bodyText

/-- The final error text after exhausting all attempts:
`HTTP <lastStatus>: <lastError>` when the last attempt completed with a
status, plainly `lastError` after a network exception. -/
def exitErrorText : Option Nat → String → String
  | some s, lastError => httpErrorText s lastError
  | none, lastError => lastError

/-- Observable result of a full `send` call: the returned response, how
many attempts were performed, and the sleeps executed between attempts. -/
structure SendTrace where
  response : TransportResponse
  attemptsUsed : Nat
  sleeps : List Nat
  deriving DecidableEq, Repr

/-- The retry loop of `Transport.send`.  `outcomes` and `rand` are the
environment oracles (the result of the `fetch` on each attempt and the
`Math.random()` draw of each backoff computation); `lastStatus` and
`lastError` carry the loop variables of the source. -/
def Transport.sendLoop (t : Transport) (events : List ErrorEvent)
    (outcomes : Nat → AttemptOutcome) (rand : Nat → ℚ)
    (attempt : Nat) (lastStatus : Option Nat) (lastError : String) : SendTrace :=
  if attempt < t.maxAttempts then
    match outcomes attempt with
    | .response status bodyText bodyEventIds retryAfterSeconds =>
      if 200 ≤ status ∧ status ≤ 299 then
        -- response.ok: parse body, fall back to the ids of the batch sent
        { response :=
            { success := true
              eventIds := some (bodyEventIds.getD (events.map ErrorEvent.event_id)) }
          attemptsUsed := attempt + 1
          sleeps := [] }
      else if ¬ Transport.isRetryableError status then
        -- non-retryable: give up immediately
        { response := { success := false, error := some (httpErrorText status bodyText) }
          attemptsUsed := attempt + 1
          sleeps := [] }
      else
        let delay := Transport.attemptDelay t.baseDelayMs t.maxDelayMs attempt
          (rand attempt) retryAfterSeconds
        let rest := Transport.sendLoop t events outcomes rand (attempt + 1)
          (some status) bodyText
        { response := rest.response
          attemptsUsed := rest.attemptsUsed
          sleeps := (if attempt < t.maxAttempts - 1 then [delay] else []) ++ rest.sleeps }
    | .networkError message =>
        let delay := Transport.calculateBackoffDelay t.baseDelayMs t.maxDelayMs
          attempt (rand attempt)
        let rest := Transport.sendLoop t events outcomes rand (attempt + 1)
          none message
        { response := rest.response
          attemptsUsed := rest.attemptsUsed
          sleeps := (if attempt < t.maxAttempts - 1 then [delay] else []) ++ rest.sleeps }
  else
    { response :=
        { success := false
          error := some (exitErrorText lastStatus lastError) }
      attemptsUsed := attempt
      sleeps := [] }
termination_by t.maxAttempts - attempt

/-- `Transport.send`: guard clauses for a missing endpoint and an empty
batch, then the retry loop starting at attempt 0. -/
def Transport.send (t : Transport) (events : List ErrorEvent)
    (outcomes : Nat → AttemptOutcome) (rand : Nat → ℚ) : SendTrace :=
  if t.endpoint = "" then
    ⟨{ success := false, error := some ("No endpoint configured") }, 0, []⟩
  else if events = [] then
    ⟨{ success := true, eventIds := some [] }, 0, []⟩
  else
    Transport.sendLoop t events outcomes rand 0 none ""

/-- An attempt outcome that the loop retries after: a network exception,
or a completed non-2xx response with a retryable status. -/
def retryableOutcome : AttemptOutcome → Bool
  | .response status _ _ _ =>
      ¬ (200 ≤ status ∧ status ≤ 299) ∧ Transport.isRetryableError status
  | .networkError _ => true

/-- When the remaining outcomes are all retryable failures, the loop keeps
retrying until the budget is exhausted and reports failure. -/
theorem Transport.sendLoop_exhausts (t : Transport) (events : List ErrorEvent)
    (outcomes : Nat → AttemptOutcome) (rand : Nat → ℚ) :
    ∀ fuel attempt lastStatus lastError,
      t.maxAttempts - attempt = fuel → attempt ≤ t.maxAttempts →
      (∀ i, attempt ≤ i → i < t.maxAttempts → retryableOutcome (outcomes i) = true) →
      (t.sendLoop events outcomes rand attempt lastStatus lastError).response.success = false
      ∧ (t.sendLoop events outcomes rand attempt lastStatus lastError).attemptsUsed
          = t.maxAttempts := by
  intro fuel
  induction fuel with
  | zero =>
    intro attempt lastStatus lastError hfuel hle _hall
    have hge : ¬ attempt < t.maxAttempts := by omega
    rw [Transport.sendLoop.eq_def]
    simp [hge]
    omega
  | succ n ih =>
    intro attempt lastStatus lastError hfuel hle hall
    have hlt : attempt < t.maxAttempts := by omega
    have hretry := hall attempt (Nat.le_refl attempt) hlt
    rw [Transport.sendLoop.eq_def]
    cases houtcome : outcomes attempt with
    | response status bodyText bodyEventIds retryAfterSeconds =>
      rw [houtcome] at hretry
      simp only [retryableOutcome, Bool.and_eq_true, decide_eq_true_eq] at hretry
      obtain ⟨hnot2xx, hretryable⟩ := hretry
      have hnot2xx' : ¬ (200 ≤ status ∧ status ≤ 299) := by
        intro hc
        simp [hc] at hnot2xx
      have hcond : ¬ ¬ (Transport.isRetryableError status = true) := by
        simp [hretryable]
      simp only [hlt, if_pos, hnot2xx', if_neg, hcond, not_false_eq_true, if_true, if_false]
      have := ih (attempt + 1) (some status) bodyText (by omega) (by omega)
        (fun i hi hilt => hall i (by omega) hilt)
      simpa using this
    | networkError message =>
      simp only [hlt, if_pos, if_true]
      have := ih (attempt + 1) none message (by omega) (by omega)
        (fun i hi hilt => hall i (by omega) hilt)
      simpa using this

/-- The loop never performs more attempts than the budget. -/
theorem Transport.sendLoop_budget (t : Transport) (events : List ErrorEvent)
    (outcomes : Nat → AttemptOutcome) (rand : Nat → ℚ) :
    ∀ fuel attempt lastStatus lastError,
      t.maxAttempts - attempt = fuel → attempt ≤ t.maxAttempts →
      (t.sendLoop events outcomes rand attempt lastStatus lastError).attemptsUsed
        ≤ t.maxAttempts := by
  intro fuel
  induction fuel with
  | zero =>
    intro attempt lastStatus lastError hfuel hle
    have hge : ¬ attempt < t.maxAttempts := by omega
    rw [Transport.sendLoop.eq_def]
    simp [hge]
    omega
  | succ n ih =>
    intro attempt lastStatus lastError hfuel hle
    have hlt : attempt < t.maxAttempts := by omega
    rw [Transport.sendLoop.eq_def]
    cases houtcome : outcomes attempt with
    | response status bodyText bodyEventIds retryAfterSeconds =>
      by_cases h2xx : 200 ≤ status ∧ status ≤ 299
      · simp [hlt, h2xx]
        omega
      · by_cases hterm : ¬ (Transport.isRetryableError status = true)
        · simp [hlt, h2xx, hterm]
          omega
        · have := ih (attempt + 1) (some status) bodyText (by omega) (by omega)
          simp [hlt, h2xx, hterm]
          simpa using this
    | networkError message =>
      have := ih (attempt + 1) none message (by omega) (by omega)
      simp [hlt]
      simpa using this

/-- C6: a failed attempt is retried exactly when the status is 5xx, 429 or
408 (and network exceptions are always retried), up to the attempt budget;
any other non-2xx status is terminal after the first such response: the
send returns failure after exactly one attempt with no sleeps. -/
theorem C6_retry_partition (t : Transport) (events : List ErrorEvent)
    (outcomes : Nat → AttemptOutcome) (rand : Nat → ℚ)
    (hend : t.endpoint ≠ "") (hev : events ≠ []) (hatt : 1 ≤ t.maxAttempts) :
    (∀ status : Nat, Transport.isRetryableError status = true ↔
        ((500 ≤ status ∧ status < 600) ∨ status = 429 ∨ status = 408))
    ∧ (∀ status bodyText bodyEventIds retryAfterSeconds,
        outcomes 0 = AttemptOutcome.response status bodyText bodyEventIds retryAfterSeconds →
        ¬ (200 ≤ status ∧ status ≤ 299) →
        Transport.isRetryableError status = false →
        t.send events outcomes rand =
          ⟨{ success := false, error := some (httpErrorText status bodyText) }, 1, []⟩)
    ∧ ((∀ i, i < t.maxAttempts → retryableOutcome (outcomes i) = true) →
        (t.send events outcomes rand).response.success = false
        ∧ (t.send events outcomes rand).attemptsUsed = t.maxAttempts)
    ∧ (t.send events outcomes rand).attemptsUsed ≤ t.maxAttempts := by
  refine ⟨?_, ?_, ?_, ?_⟩
  · intro status
    unfold Transport.isRetryableError
    by_cases h5 : 500 ≤ status ∧ status < 600
    · simp [h5]
    · by_cases h429 : status = 429
      · simp [h5, h429]
      · by_cases h408 : status = 408
        · simp [h5, h429, h408]
        · simp [h5, h429, h408]
  · intro status bodyText bodyEventIds retryAfterSeconds hout hnot2xx hterm
    unfold Transport.send
    simp only [hend, hev, if_neg, if_false]
    rw [Transport.sendLoop.eq_def]
    have h0 : 0 < t.maxAttempts := hatt
    rw [hout]
    simp [h0, hnot2xx, hterm]
  · intro hall
    unfold Transport.send
    simp only [hend, hev, if_neg, if_false]
    exact Transport.sendLoop_exhausts t events outcomes rand t.maxAttempts 0 none ""
      (by omega) (by omega) (fun i _ hilt => hall i hilt)
  · unfold Transport.send
    by_cases hend2 : t.endpoint = ""
    · exact absurd hend2 hend
    · by_cases hev2 : events = []
      · exact absurd hev2 hev
      · simp only [hend2, hev2, if_neg, if_false]
        exact Transport.sendLoop_budget t events outcomes rand t.maxAttempts 0 none ""
          (by omega) (by omega)

/-- Concrete run of C6: a single 404 response on an endpointed transport
with a nonempty batch is terminal after one attempt. -/
theorem C6_retry_partition_witness :
    ((∀ status : Nat, Transport.isRetryableError status = true ↔
        ((500 ≤ status ∧ status < 600) ∨ status = 429 ∨ status = 408))
    ∧ (∀ status bodyText bodyEventIds retryAfterSeconds,
        (fun _ : Nat => AttemptOutcome.response 404 ("not found") none none) 0
          = AttemptOutcome.response status bodyText bodyEventIds retryAfterSeconds →
        ¬ (200 ≤ status ∧ status ≤ 299) →
        Transport.isRetryableError status = false →
        Transport.send ⟨"https://collector.example", 3, 1000, 30000⟩ [⟨"a", 1⟩]
            (fun _ => AttemptOutcome.response 404 ("not found") none none) (fun _ => 0) =
          ⟨{ success := false, error := some (httpErrorText status bodyText) }, 1, []⟩)
    ∧ ((∀ i, i < (⟨"https://collector.example", 3, 1000, 30000⟩ : Transport).maxAttempts →
          retryableOutcome ((fun _ : Nat => AttemptOutcome.response 404 ("not found") none none) i)
            = true) →
        (Transport.send ⟨"https://collector.example", 3, 1000, 30000⟩ [⟨"a", 1⟩]
            (fun _ => AttemptOutcome.response 404 ("not found") none none)
            (fun _ => 0)).response.success = false
        ∧ (Transport.send ⟨"https://collector.example", 3, 1000, 30000⟩ [⟨"a", 1⟩]
            (fun _ => AttemptOutcome.response 404 ("not found") none none)
            (fun _ => 0)).attemptsUsed = 3)
    ∧ (Transport.send ⟨"https://collector.example", 3, 1000, 30000⟩ [⟨"a", 1⟩]
        (fun _ => AttemptOutcome.response 404 ("not found") none none)
        (fun _ => 0)).attemptsUsed ≤ 3) :=
  C6_retry_partition ⟨"https://collector.example", 3, 1000, 30000⟩ [⟨"a", 1⟩]
    (fun _ => AttemptOutcome.response 404 ("not found") none none) (fun _ => 0)
    (by decide) (by decide) (by decide)

/-- C7: without a Retry-After header, the backoff delay is non-decreasing
in the attempt number for any jitter draws in `[0, 1)` and never exceeds
the cap; with a Retry-After header of `R` seconds, the delay used is
`min(R * 1000, maxDelayMs)` regardless of the attempt number, and the
retry loop indeed sleeps exactly that long before the second attempt. -/
theorem C7_backoff_monotone (baseDelayMs maxDelayMs : Nat) :
    (∀ (attempt : Nat) (r r' : ℚ), 0 ≤ r → r < 1 → 0 ≤ r' → r' < 1 →
      Transport.calculateBackoffDelay baseDelayMs maxDelayMs attempt r ≤
        Transport.calculateBackoffDelay baseDelayMs maxDelayMs (attempt + 1) r'
      ∧ Transport.calculateBackoffDelay baseDelayMs maxDelayMs attempt r ≤ maxDelayMs)
    ∧ (∀ (attempt : Nat) (r : ℚ) (R : Nat),
        Transport.attemptDelay baseDelayMs maxDelayMs attempt r (some R)
          = min (R * 1000) maxDelayMs)
    ∧ (∀ (t : Transport) (events : List ErrorEvent) (outcomes : Nat → AttemptOutcome)
        (rand : Nat → ℚ) (status : Nat) (bodyText : String)
        (bodyEventIds : Option (List String)) (R : Nat),
        t.endpoint ≠ "" → events ≠ [] → 2 ≤ t.maxAttempts →
        outcomes 0 = AttemptOutcome.response status bodyText bodyEventIds (some R) →
        ¬ (200 ≤ status ∧ status ≤ 299) →
        Transport.isRetryableError status = true →
        (t.send events outcomes rand).sleeps.head? = some (min (R * 1000) t.maxDelayMs)) := by
  refine ⟨?_, ?_, ?_⟩
  · intro attempt r r' hr0 hr1 hr0' hr1'
    constructor
    · unfold Transport.calculateBackoffDelay
      apply min_le_min _ (le_refl maxDelayMs)
      apply Int.toNat_le_toNat
      apply Int.floor_le_floor
      have hE : (0 : ℚ) ≤ (baseDelayMs : ℚ) * 2 ^ attempt := by positivity
      have hE2 : ((baseDelayMs : ℚ) * 2 ^ (attempt + 1))
          = 2 * ((baseDelayMs : ℚ) * 2 ^ attempt) := by ring
      have key : (baseDelayMs : ℚ) * 2 ^ attempt
            + r * (3 / 10) * ((baseDelayMs : ℚ) * 2 ^ attempt)
          ≤ (baseDelayMs : ℚ) * 2 ^ (attempt + 1) := by
        rw [hE2]
        nlinarith
      have hE' : (0 : ℚ) ≤ (baseDelayMs : ℚ) * 2 ^ (attempt + 1) := by positivity
      have key2 : (baseDelayMs : ℚ) * 2 ^ (attempt + 1)
          ≤ (baseDelayMs : ℚ) * 2 ^ (attempt + 1)
            + r' * (3 / 10) * ((baseDelayMs : ℚ) * 2 ^ (attempt + 1)) := by
        nlinarith
      exact key.trans key2
    · unfold Transport.calculateBackoffDelay
      exact min_le_right _ _
  · intro attempt r R
    rfl
  · intro t events outcomes rand status bodyText bodyEventIds R
    intro hend hev hatt hout hnot2xx hretry
    unfold Transport.send
    simp only [hend, hev, if_neg, if_false]
    rw [Transport.sendLoop.eq_def]
    rw [hout]
    have h0 : 0 < t.maxAttempts := by omega
    have hsleep : 0 < t.maxAttempts - 1 := by omega
    have hcond : ¬ ¬ (Transport.isRetryableError status = true) := by simp [hretry]
    simp [h0, hnot2xx, hcond, hsleep, Transport.attemptDelay]

/-- Concrete run of C7 at the default retry configuration (base 1000ms,
cap 30000ms). -/
theorem C7_backoff_monotone_witness :
    ((∀ (attempt : Nat) (r r' : ℚ), 0 ≤ r → r < 1 → 0 ≤ r' → r' < 1 →
      Transport.calculateBackoffDelay 1000 30000 attempt r ≤
        Transport.calculateBackoffDelay 1000 30000 (attempt + 1) r'
      ∧ Transport.calculateBackoffDelay 1000 30000 attempt r ≤ 30000)
    ∧ (∀ (attempt : Nat) (r : ℚ) (R : Nat),
        Transport.attemptDelay 1000 30000 attempt r (some R) = min (R * 1000) 30000)
    ∧ (∀ (t : Transport) (events : List ErrorEvent) (outcomes : Nat → AttemptOutcome)
        (rand : Nat → ℚ) (status : Nat) (bodyText : String)
        (bodyEventIds : Option (List String)) (R : Nat),
        t.endpoint ≠ "" → events ≠ [] → 2 ≤ t.maxAttempts →
        outcomes 0 = AttemptOutcome.response status bodyText bodyEventIds (some R) →
        ¬ (200 ≤ status ∧ status ≤ 299) →
        Transport.isRetryableError status = true →
        (t.send events outcomes rand).sleeps.head? = some (min (R * 1000) t.maxDelayMs))) :=
  C7_backoff_monotone 1000 30000

/-- Per-fingerprint record of the deduplication map: occurrence count,
first-seen and last-seen timestamps. -/
structure DeduplicationEntry where
  count : Nat
  firstSeen : Nat
  lastSeen : Nat
  deriving DecidableEq, Repr

/-- `DeduplicationManager` state: the `seen` map (a JS `Map`, modelled as
an insertion-ordered association list with unique keys), the deduplication
window and the maximum captures per window (constructor defaults 60000ms
and 5). -/
structure DeduplicationManager where
  seen : List (String × DeduplicationEntry)
  windowMs : Nat := 60000
  maxCount : Nat := 5
  deriving DecidableEq, Repr

/-- `Map.set`: overwrite the entry under the key if present, otherwise
append it. -/
def mapSet (m : List (String × DeduplicationEntry)) (k : String)
    (v : DeduplicationEntry) : List (String × DeduplicationEntry) :=
  if m.any (fun p => p.1 == k) then
    m.map (fun p => if p.1 == k then (k, v) else p)
  else
    m ++ [(k, v)]

/-- `DeduplicationManager.shouldCapture(fingerprint)` with `Date.now()`
passed explicitly: first occurrence and window-expired occurrences insert
a fresh entry (count 1) and admit; inside the window the count is
incremented, `lastSeen` updated, and the call admits while the cumulative
count stays at or below `maxCount`. -/
def DeduplicationManager.shouldCapture (d : DeduplicationManager)
    (fingerprint : String) (now : Nat) : Bool × DeduplicationManager :=
  match d.seen.lookup fingerprint with
  | none =>
    (true, { d with seen := mapSet d.seen fingerprint ⟨1, now, now⟩ })
  | some existing =>
    if now - existing.firstSeen > d.windowMs then
      (true, { d with seen := mapSet d.seen fingerprint ⟨1, now, now⟩ })
    else
      let updated : DeduplicationEntry := ⟨existing.count + 1, existing.firstSeen, now⟩
      (decide (updated.count ≤ d.maxCount),
        { d with seen := mapSet d.seen fingerprint updated })

/-- A sequence of `shouldCapture` calls on one fingerprint at the given
clock readings, collecting the returned booleans and the final state. -/
def DeduplicationManager.captureRun (d : DeduplicationManager)
    (fingerprint : String) : List Nat → List Bool × DeduplicationManager
  | [] => ([], d)
  | t :: ts =>
    let step := d.shouldCapture fingerprint t
    let rest := step.2.captureRun fingerprint ts
    (step.1 :: rest.1, rest.2)

/-- C8: with `maxCount = 3` and `windowMs = 5000`, four calls on the same
fingerprint within 5000ms of the first return true, true, true, false, and
a fifth call after the window has elapsed since `firstSeen` returns true
with the counter reset to 1. -/
theorem C8_dedup_window (fingerprint : String) (t0 t1 t2 t3 t4 : Nat)
    (h01 : t0 ≤ t1) (h12 : t1 ≤ t2) (h23 : t2 ≤ t3)
    (hwin : t3 - t0 ≤ 5000) (h34 : t3 ≤ t4) (hout : 5000 < t4 - t0) :
    ((⟨[], 5000, 3⟩ : DeduplicationManager).captureRun fingerprint
        [t0, t1, t2, t3, t4]).1 = [true, true, true, false, true]
    ∧ ((⟨[], 5000, 3⟩ : DeduplicationManager).captureRun fingerprint
        [t0, t1, t2, t3, t4]).2.seen.lookup fingerprint
      = some ⟨1, t4, t4⟩ := by
  have hc1 : ¬ (t1 - t0 > 5000) := by omega
  have hc2 : ¬ (t2 - t0 > 5000) := by omega
  have hc3 : ¬ (t3 - t0 > 5000) := by omega
  have hc4 : t4 - t0 > 5000 := by omega
  constructor <;>
    simp [DeduplicationManager.captureRun, DeduplicationManager.shouldCapture,
      mapSet, List.lookup, hc1, hc2, hc3, hc4]

/-- Concrete run of C8 at times 0, 1000, 2000, 3000, 9000. -/
theorem C8_dedup_window_witness :
    ((⟨[], 5000, 3⟩ : DeduplicationManager).captureRun ("fp")
        [0, 1000, 2000, 3000, 9000]).1 = [true, true, true, false, true]
    ∧ ((⟨[], 5000, 3⟩ : DeduplicationManager).captureRun ("fp")
        [0, 1000, 2000, 3000, 9000]).2.seen.lookup ("fp")
      = some ⟨1, 9000, 9000⟩ :=
  C8_dedup_window ("fp") 0 1000 2000 3000 9000 (by decide) (by decide)
    (by decide) (by decide) (by decide) (by decide)

/-- The response-processing tail of `ErrorTracker.sendQueuedEvents`: the
batch is `getAll()` read before the awaited `transport.send`; events
enqueued while the send is in flight (`extra`) are already in the queue
when the response is processed.  On success, the ids reported by the
response are removed; a success without an id list clears the whole
queue; on failure everything stays queued. -/
def sendQueuedEvents (q : ErrorQueue) (extra : List ErrorEvent)
    (response : TransportResponse) : ErrorQueue :=
  let events := q.getAll
  if events = [] then q
  else
    let qAtCompletion : ErrorQueue := { q with queue := q.queue ++ extra }
    if response.success then
      match response.eventIds with
      | some ids => qAtCompletion.remove ids
      | none => qAtCompletion.clear
    else qAtCompletion

/-- C1 counterexample: a 2xx response whose body has no `event_ids` field
does not clear the whole queue — the transport substitutes the ids of the
batch it sent, so an event enqueued after the batch was read survives. -/
theorem C1_counterexample :
    (Transport.send ⟨"https://collector.example", 3, 1000, 30000⟩ [⟨"e1", 1⟩]
        (fun _ => AttemptOutcome.response 200 ("") none none)
        (fun _ => 0)).response.success = true
    ∧ (sendQueuedEvents ⟨[⟨"e1", 1⟩], 50⟩ [⟨"e2", 2⟩]
        (Transport.send ⟨"https://collector.example", 3, 1000, 30000⟩ [⟨"e1", 1⟩]
          (fun _ => AttemptOutcome.response 200 ("") none none)
          (fun _ => 0)).response).queue = [⟨"e2", 2⟩] := by
  have htrace : Transport.send ⟨"https://collector.example", 3, 1000, 30000⟩ [⟨"e1", 1⟩]
      (fun _ => AttemptOutcome.response 200 ("") none none) (fun _ => 0)
      = ⟨{ success := true, eventIds := some ["e1"] }, 1, []⟩ := by
    unfold Transport.send
    rw [Transport.sendLoop.eq_def]
    decide
  rw [htrace]
  exact ⟨rfl, rfl⟩

/-- C1 (amended): on a 2xx first-attempt response the send succeeds with
`eventIds` equal to the body's `event_ids` when present and the ids of
the batch just sent when absent; `sendQueuedEvents` then removes exactly
the entries carrying those ids — in particular, when `event_ids` is
absent only the batch is removed and later-enqueued events are retained;
the whole-queue `clear` branch is never reached from this transport. -/
theorem C1_success_removal (t : Transport) (q : ErrorQueue)
    (extra : List ErrorEvent) (outcomes : Nat → AttemptOutcome) (rand : Nat → ℚ)
    (status : Nat) (bodyText : String) (bodyEventIds : Option (List String))
    (retryAfterSeconds : Option Nat)
    (hend : t.endpoint ≠ "") (hq : q.queue ≠ []) (hatt : 1 ≤ t.maxAttempts)
    (hout : outcomes 0 = AttemptOutcome.response status bodyText bodyEventIds retryAfterSeconds)
    (h2xx : 200 ≤ status ∧ status ≤ 299) :
    (t.send q.getAll outcomes rand).response.success = true
    ∧ (t.send q.getAll outcomes rand).response.eventIds
        = some (bodyEventIds.getD (q.getAll.map ErrorEvent.event_id))
    ∧ (sendQueuedEvents q extra (t.send q.getAll outcomes rand).response).queue
        = (q.queue ++ extra).filter (fun e =>
            ¬ (bodyEventIds.getD (q.getAll.map ErrorEvent.event_id)).contains e.event_id) := by
  have hq2 : q.getAll ≠ [] := hq
  have htrace : t.send q.getAll outcomes rand =
      ⟨{ success := true
         eventIds := some (bodyEventIds.getD (q.getAll.map ErrorEvent.event_id)) }, 1, []⟩ := by
    unfold Transport.send
    simp only [hend, hq2, if_neg, if_false]
    rw [Transport.sendLoop.eq_def]
    rw [hout]
    have h0 : 0 < t.maxAttempts := hatt
    simp [h0, h2xx]
  refine ⟨by rw [htrace], by rw [htrace], ?_⟩
  rw [htrace]
  unfold sendQueuedEvents
  simp only [hq2, if_neg, if_false]
  rfl

/-- Concrete run of the amended C1: batch of one event, one later
enqueue, 2xx response without `event_ids`. -/
theorem C1_success_removal_witness :
    (Transport.send ⟨"https://collector.example", 3, 1000, 30000⟩
        (⟨[⟨"e1", 1⟩], 50⟩ : ErrorQueue).getAll
        (fun _ => AttemptOutcome.response 200 ("") none none)
        (fun _ => 0)).response.success = true
    ∧ (Transport.send ⟨"https://collector.example", 3, 1000, 30000⟩
        (⟨[⟨"e1", 1⟩], 50⟩ : ErrorQueue).getAll
        (fun _ => AttemptOutcome.response 200 ("") none none)
        (fun _ => 0)).response.eventIds
      = some ((none : Option (List String)).getD
          ((⟨[⟨"e1", 1⟩], 50⟩ : ErrorQueue).getAll.map ErrorEvent.event_id))
    ∧ (sendQueuedEvents ⟨[⟨"e1", 1⟩], 50⟩ [⟨"e2", 2⟩]
        (Transport.send ⟨"https://collector.example", 3, 1000, 30000⟩
          (⟨[⟨"e1", 1⟩], 50⟩ : ErrorQueue).getAll
          (fun _ => AttemptOutcome.response 200 ("") none none)
          (fun _ => 0)).response).queue
      = (((⟨[⟨"e1", 1⟩], 50⟩ : ErrorQueue).queue ++ ([⟨"e2", 2⟩] : List ErrorEvent)).filter
          (fun e =>
            ¬ ((none : Option (List String)).getD
                ((⟨[⟨"e1", 1⟩], 50⟩ : ErrorQueue).getAll.map ErrorEvent.event_id)).contains
              e.event_id)) :=
  C1_success_removal (⟨"https://collector.example", 3, 1000, 30000⟩ : Transport)
    (⟨[⟨"e1", 1⟩], 50⟩ : ErrorQueue)
    [⟨"e2", 2⟩] (fun _ => AttemptOutcome.response 200 ("") none none) (fun _ => 0)
    200 ("") none none (by decide) (by decide) (by decide) rfl (by decide)

/-- The tracker resources that `init` installs and `shutdown` tears down
(`src/core/tracker.ts`): the initialization flag, the periodic flush
interval, the pending debounce timer, the window handlers, the console
interceptor, the breadcrumb sweep interval, and a tag identifying which
configuration is loaded. -/
structure TrackerState where
  inited : Bool
  flushTimerActive : Bool
  debounceActive : Bool
  windowHandlersActive : Bool
  consoleIntercepted : Bool
  breadcrumbSweepActive : Bool
  configTag : Nat
  deriving DecidableEq, Repr

/-- The synchronous prefix of `ErrorTracker.shutdown`, up to the first
`await`: clear the flush interval and debounce timer, detach the window
handlers, restore the console, destroy the breadcrumb manager.  The final
flush and the `isInitialized = false` assignment come after the `await`
and are therefore not part of this prefix. -/
def shutdownSyncPhase (s : TrackerState) : TrackerState :=
  { s with
    flushTimerActive := false
    debounceActive := false
    windowHandlersActive := false
    consoleIntercepted := false
    breadcrumbSweepActive := false }

/-- The continuation of `shutdown` that resumes once the awaited final
flush settles (whether it succeeded or its error was caught and logged):
`this.isInitialized = false`. -/
def shutdownContinuation (s : TrackerState) : TrackerState :=
  { s with inited := false }

/-- `ErrorTracker.init(config)`: when already initialized it warns and
invokes `this.shutdown()` without awaiting the returned promise, so only
the synchronous prefix of `shutdown` runs now and the post-`await`
continuation is deferred to the microtask queue; then the tracker is
rebuilt with the new configuration (flush interval only in periodic mode)
and marked initialized.  Returns the state as `init` leaves it together
with the deferred continuations. -/
def initTracker (s : TrackerState) (newConfigTag : Nat)
    (sendOnErrorOnly : Bool) : TrackerState × List (TrackerState → TrackerState) :=
  let started :=
    if s.inited then (shutdownSyncPhase s, [shutdownContinuation]) else (s, [])
  ({ started.1 with
      inited := true
      configTag := newConfigTag
      flushTimerActive := ¬ sendOnErrorOnly
      windowHandlersActive := true
      consoleIntercepted := true
      breadcrumbSweepActive := true },
    started.2)

/-- Run the deferred continuations (the microtask queue) in order. -/
def runPending : TrackerState → List (TrackerState → TrackerState) → TrackerState
  | s, [] => s
  | s, f :: fs => runPending (f s) fs

/-- C3: calling `init` while the tracker is already initialized leaves an
unawaited `shutdown()` in flight: `init` itself returns with the tracker
marked initialized, but the shutdown's post-flush continuation is still
pending (so the implicit shutdown has not finished before the
reinitialization), and once that continuation runs it sets
`isInitialized` to false, leaving the freshly reinitialized tracker in
the uninitialized state. -/
theorem C3_reinit_shutdown_race :
    ((initTracker (initTracker
        ⟨false, false, false, false, false, false, 0⟩ 1 true).1 2 true).1).inited = true
    ∧ (initTracker (initTracker
        ⟨false, false, false, false, false, false, 0⟩ 1 true).1 2 true).2.length = 1
    ∧ (runPending
        (initTracker (initTracker
          ⟨false, false, false, false, false, false, 0⟩ 1 true).1 2 true).1
        (initTracker (initTracker
          ⟨false, false, false, false, false, false, 0⟩ 1 true).1 2 true).2).inited
      = false
    ∧ (runPending
        (initTracker (initTracker
          ⟨false, false, false, false, false, false, 0⟩ 1 true).1 2 true).1
        (initTracker (initTracker
          ⟨false, false, false, false, false, false, 0⟩ 1 true).1 2 true).2).configTag
      = 2 :=
  ⟨rfl, rfl, rfl, rfl⟩

/-- JavaScript runtime values as the sanitizer case-splits on them
(`src/core/sanitizer.ts` / `safeClone`): null, undefined, primitives,
`Error` instances (name, message, optional stack), `Date` values (carried
as their `toISOString()` rendering), arrays and plain objects. -/
inductive JSValue where
  | vnull
  | vundefined
  | vbool (b : Bool)
  | vnum (q : ℚ)
  | vstr (s : String)
  | verr (name message : String) (stack : Option String)
  | vdate (iso : String)
  | varr (items : List JSValue)
  | vobj (fields : List (String × JSValue))

/-- Does the first character list start with the second? -/
def startsWithList : List Char → List Char → Bool
  | _, [] => true
  | [], _ :: _ => false
  | c :: cs, p :: ps => c = p && startsWithList cs ps

/-- Substring occurrence test on character lists. -/
def containsList : List Char → List Char → Bool
  | [], pat => pat.isEmpty
  | c :: cs, pat => startsWithList (c :: cs) pat || containsList cs pat

/-- Case-insensitive substring test: `/fragment/i.test(key)` for a
literal pattern fragment (ASCII case folding, character by character). -/
def icontains (key pat : String) : Bool :=
  containsList (key.toList.map Char.toLower) (pat.toList.map Char.toLower)

/-- `DEFAULT_REDACT_PATTERNS` of `src/core/sanitizer.ts`, in order:
password, token, access[_-]?token, refresh[_-]?token, api[_-]?key,
secret, auth, bearer, authorization — each an unanchored case-insensitive
test against the key. -/
def shouldRedactDefault (key : String) : Bool :=
  icontains key ("password") ||
  icontains key ("token") ||
  (icontains key ("accesstoken") || icontains key ("access_token")
    || icontains key ("access-token")) ||
  (icontains key ("refreshtoken") || icontains key ("refresh_token")
    || icontains key ("refresh-token")) ||
  (icontains key ("apikey") || icontains key ("api_key") || icontains key ("api-key")) ||
  icontains key ("secret") ||
  icontains key ("auth") ||
  icontains key ("bearer") ||
  icontains key ("authorization")

/-- `DataSanitizer` configuration: auto-redaction flag, user-supplied
custom patterns (modelled as key predicates, as only `pattern.test(key)`
is ever called), and the replacement string.  Constructor defaults:
`true`, `[]`, `[REDACTED]`. -/
structure DataSanitizer where
  autoRedact : Bool := true
  customPatterns : List (String → Bool) := []
  redactedValue : String := "[REDACTED]"

/-- `DataSanitizer.shouldRedact`: test the key against the default
patterns (when auto-redaction is on) followed by the custom patterns. -/
def DataSanitizer.shouldRedact (d : DataSanitizer) (key : String) : Bool :=
  if d.autoRedact then
    shouldRedactDefault key || d.customPatterns.any (fun p => p key)
  else
    d.customPatterns.any (fun p => p key)

/-- The `stack` property of a sanitized `Error`: the string when present,
JavaScript `undefined` when absent. -/
def stackValue : Option String → JSValue
  | some s => .vstr s
  | none => .vundefined

/-- The recursion of `DataSanitizer.sanitizeRecursive`, with the
remaining depth budget `maxDepth - currentDepth` as explicit fuel (the
source checks `currentDepth >= maxDepth` first, so fuel 0 yields the
depth marker before anything else is inspected).  Errors are reduced to
`{name, message, stack}`, dates to their ISO string, arrays and objects
are rebuilt one level deeper, and object values under a redacted key are
replaced without being recursed into.  `for...in` over a materialised
object cannot throw, so the `catch` branch of the source (which would
return the circular-reference marker) is unreachable here. -/
def sanitizeGo (d : DataSanitizer) : Nat → JSValue → JSValue
  | 0, _ => .vstr ("[Max Depth Reached]")
  | _ + 1, .vnull => .vnull
  | _ + 1, .vundefined => .vundefined
  | _ + 1, .vbool b => .vbool b
  | _ + 1, .vnum q => .vnum q
  | _ + 1, .vstr s => .vstr s
  | _ + 1, .verr name message stack =>
      .vobj [("name", .vstr name), ("message", .vstr message),
             ("stack", stackValue stack)]
  | _ + 1, .vdate iso => .vstr iso
  | fuel + 1, .varr items =>
      .varr (items.map (fun item => sanitizeGo d fuel item))
  | fuel + 1, .vobj fields =>
      .vobj (fields.map (fun f =>
        (f.1, if d.shouldRedact f.1 then .vstr d.redactedValue
              else sanitizeGo d fuel f.2)))

/-- `DataSanitizer.sanitizeRecursive(value, maxDepth, currentDepth)`. -/
def DataSanitizer.sanitizeRecursive (d : DataSanitizer) (value : JSValue)
    (maxDepth currentDepth : Nat) : JSValue :=
  sanitizeGo d (maxDepth - currentDepth) value

/-- The recursion of `safeClone` (`src/utils/helpers.ts`): identical to
`sanitizeGo` except that no key is redacted. -/
def safeCloneGo : Nat → JSValue → JSValue
  | 0, _ => .vstr ("[Max Depth Reached]")
  | _ + 1, .vnull => .vnull
  | _ + 1, .vundefined => .vundefined
  | _ + 1, .vbool b => .vbool b
  | _ + 1, .vnum q => .vnum q
  | _ + 1, .vstr s => .vstr s
  | _ + 1, .verr name message stack =>
      .vobj [("name", .vstr name), ("message", .vstr message),
             ("stack", stackValue stack)]
  | _ + 1, .vdate iso => .vstr iso
  | fuel + 1, .varr items =>
      .varr (items.map (fun item => safeCloneGo fuel item))
  | fuel + 1, .vobj fields =>
      .vobj (fields.map (fun f => (f.1, safeCloneGo fuel f.2)))

/-- `safeClone(obj, maxDepth, currentDepth)` with its source defaults. -/
def safeClone (obj : JSValue) (maxDepth : Nat := 10) (currentDepth : Nat := 0) : JSValue :=
  safeCloneGo (maxDepth - currentDepth) obj

/-- `DataSanitizer.sanitize(data, maxDepth = 10)`: plain deep clone when
no redaction is configured at all, the redacting recursion otherwise. -/
def DataSanitizer.sanitize (d : DataSanitizer) (data : JSValue)
    (maxDepth : Nat := 10) : JSValue :=
  if ¬ d.autoRedact ∧ d.customPatterns.isEmpty then
    safeClone data maxDepth 0
  else
    d.sanitizeRecursive data maxDepth 0

/-- Is there an `Error` instance at depth exactly `n` of the value? -/
def errAtDepth : Nat → JSValue → Bool
  | 0, .verr _ _ _ => true
  | 0, _ => false
  | n + 1, .varr items => items.any (fun v => errAtDepth n v)
  | n + 1, .vobj fields => fields.any (fun f => errAtDepth n f.2)
  | _ + 1, _ => false

/-- When no key is ever redacted, the sanitizing recursion coincides with
the plain deep clone. -/
theorem sanitizeGo_of_no_redaction (d : DataSanitizer)
    (hnone : ∀ k, d.shouldRedact k = false) :
    ∀ bound : Nat, ∀ x : JSValue, sizeOf x ≤ bound → ∀ fuel : Nat,
      sanitizeGo d fuel x = safeCloneGo fuel x := by
  intro bound
  induction bound using Nat.strong_induction_on with
  | _ bound ih =>
    intro x hx fuel
    match fuel with
    | 0 => rfl
    | fuel + 1 =>
      cases x with
      | vnull => rfl
      | vundefined => rfl
      | vbool b => rfl
      | vnum q => rfl
      | vstr s => rfl
      | vdate iso => rfl
      | verr name message stack => rfl
      | varr items =>
        simp only [sanitizeGo, safeCloneGo, JSValue.varr.injEq]
        apply List.map_congr_left
        intro item hitem
        have hlt : sizeOf item < bound := by
          have h1 := List.sizeOf_lt_of_mem hitem
          have h2 : sizeOf (JSValue.varr items) = 1 + sizeOf items := by simp
          omega
        exact ih (sizeOf item) hlt item (le_refl _) fuel
      | vobj fields =>
        simp only [sanitizeGo, safeCloneGo, JSValue.vobj.injEq]
        apply List.map_congr_left
        intro f hf
        have hlt : sizeOf f.2 < bound := by
          have h1 := List.sizeOf_lt_of_mem hf
          have h2 : sizeOf (JSValue.vobj fields) = 1 + sizeOf fields := by simp
          obtain ⟨k, v⟩ := f
          simp at h1 ⊢
          omega
        rw [hnone f.1]
        simp only [Bool.false_eq_true, if_false]
        rw [ih (sizeOf f.2) hlt f.2 (le_refl _) fuel]

/-- Idempotence of the sanitizing recursion, provided the keys `name`,
`message` and `stack` of a sanitized `Error` are not themselves redacted
and no `Error` instance sits exactly one level above the depth cut-off
(where the first pass would materialise its string fields just beyond the
budget and the second pass would overwrite them with the depth marker). -/
theorem sanitizeGo_idem (d : DataSanitizer)
    (hname : d.shouldRedact ("name") = false)
    (hmessage : d.shouldRedact ("message") = false)
    (hstack : d.shouldRedact ("stack") = false) :
    ∀ bound : Nat, ∀ x : JSValue, sizeOf x ≤ bound → ∀ fuel : Nat,
      (1 ≤ fuel → errAtDepth (fuel - 1) x = false) →
      sanitizeGo d fuel (sanitizeGo d fuel x) = sanitizeGo d fuel x := by
  intro bound
  induction bound using Nat.strong_induction_on with
  | _ bound ih =>
    intro x hx fuel herr
    match fuel with
    | 0 => rfl
    | fuel + 1 =>
      have herr1 : errAtDepth fuel x = false := by
        have := herr (by omega)
        simpa using this
      cases x with
      | vnull => rfl
      | vundefined => rfl
      | vbool b => rfl
      | vnum q => rfl
      | vstr s => rfl
      | vdate iso => rfl
      | verr name message stack =>
        match fuel, herr1 with
        | 0, herr1 => simp [errAtDepth] at herr1
        | fuel + 1, _ =>
          cases stack with
          | none => simp [sanitizeGo, stackValue, hname, hmessage, hstack]
          | some s => simp [sanitizeGo, stackValue, hname, hmessage, hstack]
      | varr items =>
        simp only [sanitizeGo, List.map_map, JSValue.varr.injEq]
        apply List.map_congr_left
        intro item hitem
        have hlt : sizeOf item < bound := by
          have h1 := List.sizeOf_lt_of_mem hitem
          have h2 : sizeOf (JSValue.varr items) = 1 + sizeOf items := by simp
          omega
        simp only [Function.comp_apply]
        apply ih (sizeOf item) hlt item (le_refl _) fuel
        intro hf1
        match fuel, herr1 with
        | f + 1, herr1 =>
          simp only [errAtDepth, List.any_eq_false] at herr1
          simpa using herr1 item hitem
      | vobj fields =>
        simp only [sanitizeGo, List.map_map, JSValue.vobj.injEq]
        apply List.map_congr_left
        intro f hf
        have hlt : sizeOf f.2 < bound := by
          have h1 := List.sizeOf_lt_of_mem hf
          have h2 : sizeOf (JSValue.vobj fields) = 1 + sizeOf fields := by simp
          obtain ⟨k, v⟩ := f
          simp at h1 ⊢
          omega
        simp only [Function.comp_apply]
        by_cases hred : d.shouldRedact f.1 = true
        · simp [hred]
        · have hred' : d.shouldRedact f.1 = false := by
            simpa using hred
          simp only [hred', Bool.false_eq_true, if_false]
          rw [ih (sizeOf f.2) hlt f.2 (le_refl _) fuel ?_]
          intro hf1
          match fuel, herr1 with
          | g + 1, herr1 =>
            simp only [errAtDepth, List.any_eq_false] at herr1
            simpa using herr1 f hf

/-- `n` nested single-field objects around a value, each level under the
key `k`. -/
def nestObj : Nat → JSValue → JSValue
  | 0, v => v
  | n + 1, v => .vobj [("k", nestObj n v)]

/-- Field projection of an object value (undefined otherwise). -/
def objAt : JSValue → String → JSValue
  | .vobj fields, key => (fields.lookup key).getD .vundefined
  | _, _ => .vundefined

/-- Follow the key `k` down `n` object levels. -/
def digK : Nat → JSValue → JSValue
  | 0, v => v
  | n + 1, v => digK n (objAt v ("k"))

/-- The carried string of a string value. -/
def strAt : JSValue → Option String
  | .vstr s => some s
  | _ => none

/-- C4 counterexample: sanitization is not idempotent.  For an `Error`
instance nested under nine object levels (depth `maxDepth - 1 = 9`), the
first pass materialises its `{name, message, stack}` fields one level
beyond the depth budget, and the second pass overwrites them with the
depth marker, so `sanitize(sanitize(x)) ≠ sanitize(x)`. -/
theorem C4_counterexample :
    (⟨true, [], "[REDACTED]"⟩ : DataSanitizer).sanitize
        ((⟨true, [], "[REDACTED]"⟩ : DataSanitizer).sanitize
          (nestObj 9 (.verr ("E") ("boom") none)) 10) 10
      ≠ (⟨true, [], "[REDACTED]"⟩ : DataSanitizer).sanitize
          (nestObj 9 (.verr ("E") ("boom") none)) 10 := by
  intro h
  have hc := congrArg (fun v => strAt (objAt (digK 9 v) ("name"))) h
  exact absurd hc (by decide)

/-- C4 (amended): `sanitize` is idempotent for every input containing no
`Error` instance at depth exactly `maxDepth - 1 = 9` (Errors elsewhere,
Dates, arrays, redacted keys and nesting at or beyond the maximum depth
are all fine), for any sanitizer whose patterns do not redact the keys
`name`, `message` or `stack` — in particular the default sanitizer. -/
theorem C4_sanitize_idem (d : DataSanitizer) (x : JSValue)
    (hname : d.shouldRedact ("name") = false)
    (hmessage : d.shouldRedact ("message") = false)
    (hstack : d.shouldRedact ("stack") = false)
    (herr : errAtDepth 9 x = false) :
    d.sanitize (d.sanitize x 10) 10 = d.sanitize x 10 := by
  unfold DataSanitizer.sanitize
  by_cases hplain : ¬ d.autoRedact ∧ d.customPatterns.isEmpty
  · simp only [hplain, if_pos]
    have hnone : ∀ k, d.shouldRedact k = false := by
      intro k
      unfold DataSanitizer.shouldRedact
      obtain ⟨h1, h2⟩ := hplain
      have h1' : d.autoRedact = false := by
        simpa using h1
      have h2' : d.customPatterns = [] := by
        simpa [List.isEmpty_iff] using h2
      simp [h1', h2']
    have hb : ∀ y : JSValue, sanitizeGo d 10 y = safeCloneGo 10 y := fun y =>
      sanitizeGo_of_no_redaction d hnone (sizeOf y) y (le_refl _) 10
    show safeCloneGo 10 (safeCloneGo 10 x) = safeCloneGo 10 x
    rw [← hb, ← hb]
    exact sanitizeGo_idem d hname hmessage hstack (sizeOf x) x (le_refl _) 10
      (fun _ => herr)
  · simp only [hplain, if_neg, if_false]
    show sanitizeGo d 10 (sanitizeGo d 10 x) = sanitizeGo d 10 x
    exact sanitizeGo_idem d hname hmessage hstack (sizeOf x) x (le_refl _) 10
      (fun _ => herr)

/-- Concrete run of the amended C4: a value with a redacted key, an
`Error` inside an array, and a `Date`, under the default sanitizer. -/
theorem C4_sanitize_idem_witness :
    (⟨true, [], "[REDACTED]"⟩ : DataSanitizer).sanitize
        ((⟨true, [], "[REDACTED]"⟩ : DataSanitizer).sanitize
          (.vobj [("password", .vstr ("hunter2")),
                  ("items", .varr [.verr ("E") ("m") none]),
                  ("when", .vdate ("2020-01-02T03:04:05.000Z"))]) 10) 10
      = (⟨true, [], "[REDACTED]"⟩ : DataSanitizer).sanitize
          (.vobj [("password", .vstr ("hunter2")),
                  ("items", .varr [.verr ("E") ("m") none]),
                  ("when", .vdate ("2020-01-02T03:04:05.000Z"))]) 10 :=
  C4_sanitize_idem ⟨true, [], "[REDACTED]"⟩
    (.vobj [("password", .vstr ("hunter2")),
            ("items", .varr [.verr ("E") ("m") none]),
            ("when", .vdate ("2020-01-02T03:04:05.000Z"))])
    (by decide) (by decide) (by decide) (by decide)

/-- A node of a JavaScript object graph: like `JSValue`, but arrays and
objects hold heap addresses, so cyclic references are representable. -/
inductive HNode where
  | hnull
  | hundefined
  | hbool (b : Bool)
  | hnum (q : ℚ)
  | hstr (s : String)
  | herr (name message : String) (stack : Option String)
  | hdate (iso : String)
  | harr (elems : List Nat)
  | hobj (fields : List (String × Nat))

/-- `DataSanitizer.sanitizeRecursive` read over an object graph
`heap : Nat → Nat` addresses (total, as every JavaScript reference
resolves), with the remaining depth budget as fuel exactly as in
`sanitizeGo`.  This is the same source function, stated on the graph
representation so that cyclic inputs can be expressed. -/
def sanitizeGoH (d : DataSanitizer) (heap : Nat → HNode) : Nat → Nat → JSValue
  | 0, _ => .vstr ("[Max Depth Reached]")
  | fuel + 1, addr =>
    match heap addr with
    | .hnull => .vnull
    | .hundefined => .vundefined
    | .hbool b => .vbool b
    | .hnum q => .vnum q
    | .hstr s => .vstr s
    | .herr name message stack =>
        .vobj [("name", .vstr name), ("message", .vstr message),
               ("stack", stackValue stack)]
    | .hdate iso => .vstr iso
    | .harr elems => .varr (elems.map (fun a => sanitizeGoH d heap fuel a))
    | .hobj fields => .vobj (fields.map (fun f =>
        (f.1, if d.shouldRedact f.1 then .vstr d.redactedValue
              else sanitizeGoH d heap fuel f.2)))

/-- `sanitize` of the value at `addr` of an object graph. -/
def DataSanitizer.sanitizeH (d : DataSanitizer) (heap : Nat → HNode)
    (addr : Nat) (maxDepth : Nat := 10) : JSValue :=
  sanitizeGoH d heap maxDepth addr

/-- Depth-bounded occurrence test: does the string `marker` occur as a
string leaf within the first `fuel` levels of the value? -/
def containsStrB : Nat → String → JSValue → Bool
  | 0, _, _ => false
  | _ + 1, marker, .vstr s => s = marker
  | fuel + 1, marker, .varr items => items.any (fun v => containsStrB fuel marker v)
  | fuel + 1, marker, .vobj fields => fields.any (fun f => containsStrB fuel marker f.2)
  | _ + 1, _, _ => false

/-- C2 counterexample: sanitizing a directly self-referencing object
terminates (the model is a total function) but yields ten levels of the
`self` field closed off by the depth marker `[Max Depth Reached]` — the
circular-reference marker `[Circular Reference]` appears nowhere, because
the `catch` branch that would produce it is not reached by a plain cycle. -/
theorem C2_counterexample :
    containsStrB 20 ("[Circular Reference]")
        ((⟨true, [], "[REDACTED]"⟩ : DataSanitizer).sanitizeH
          (fun _ => HNode.hobj [("self", 0)]) 0 10) = false
    ∧ containsStrB 20 ("[Max Depth Reached]")
        ((⟨true, [], "[REDACTED]"⟩ : DataSanitizer).sanitizeH
          (fun _ => HNode.hobj [("self", 0)]) 0 10) = true := by
  constructor
  · decide
  · decide

/-- C2 (amended): for every object graph with a cycle reachable along
non-redacted object fields from the start address — given as an infinite
chain, which any such cycle unrolls into — `sanitize` terminates (it is
a total function, its recursion bounded by the depth budget) and the
cycle is cut with the `[Max Depth Reached]` depth marker in the output,
for every depth budget. -/
theorem C2_cycle_terminates (d : DataSanitizer) (heap : Nat → HNode)
    (g : Nat → Nat) (k : Nat → String)
    (hchain : ∀ i, ∃ fields, heap (g i) = HNode.hobj fields
        ∧ (k i, g (i + 1)) ∈ fields ∧ d.shouldRedact (k i) = false) :
    ∀ maxDepth : Nat,
      containsStrB (maxDepth + 1) ("[Max Depth Reached]")
        (d.sanitizeH heap (g 0) maxDepth) = true := by
  have main : ∀ fuel : Nat, ∀ i : Nat,
      containsStrB (fuel + 1) ("[Max Depth Reached]")
        (sanitizeGoH d heap fuel (g i)) = true := by
    intro fuel
    induction fuel with
    | zero =>
      intro i
      simp [sanitizeGoH, containsStrB]
    | succ n ih =>
      intro i
      obtain ⟨fields, heq, hmem, hred⟩ := hchain i
      simp only [sanitizeGoH, heq, containsStrB]
      rw [List.any_eq_true]
      refine ⟨((k i, g (i + 1)) : String × Nat).map id
        (fun a => if d.shouldRedact (k i) then JSValue.vstr d.redactedValue
                  else sanitizeGoH d heap n a), ?_, ?_⟩
      · exact List.mem_map_of_mem _ hmem
      · simp only [Prod.map, id]
        rw [hred]
        simp only [Bool.false_eq_true, if_false]
        exact ih (i + 1)
  intro maxDepth
  exact main maxDepth 0

/-- JavaScript word character (`\w` = `[A-Za-z0-9_]`), the class `\b`
boundaries are defined against. -/
def isWordChar (c : Char) : Bool :=
  ('a' ≤ c ∧ c ≤ 'z') ∨ ('A' ≤ c ∧ c ≤ 'Z') ∨ Char.isDigit c ∨ c = '_'

/-- Hexadecimal digit, case-insensitive (`[0-9a-f]` under the `/i`
flag). -/
def isHexChar (c : Char) : Bool :=
  Char.isDigit c ∨ ('a' ≤ c ∧ c ≤ 'f') ∨ ('A' ≤ c ∧ c ≤ 'F')

/-- JavaScript whitespace (`\s`): ASCII whitespace, NBSP, the Unicode
space separators, line/paragraph separators and the BOM. -/
def isJsSpace (c : Char) : Bool :=
  c.toNat = 9 ∨ c.toNat = 10 ∨ c.toNat = 11 ∨ c.toNat = 12 ∨ c.toNat = 13
  ∨ c.toNat = 32 ∨ c.toNat = 160 ∨ c.toNat = 5760
  ∨ (8192 ≤ c.toNat ∧ c.toNat ≤ 8202)
  ∨ c.toNat = 8232 ∨ c.toNat = 8233 ∨ c.toNat = 8239 ∨ c.toNat = 8287
  ∨ c.toNat = 12288 ∨ c.toNat = 65279

/-- Does the upcoming text fail to start with a word character (the
trailing `\b` of `\b\d+\b` against a following word character)? -/
def notWordAhead : List Char → Bool
  | [] => true
  | c :: _ => ¬ isWordChar c

/-- Exactly `n` hex digits. -/
def matchHexN : Nat → List Char → Option (List Char)
  | 0, cs => some cs
  | _ + 1, [] => none
  | n + 1, c :: cs => if isHexChar c then matchHexN n cs else none

/-- Exactly `n` decimal digits. -/
def matchDigitN : Nat → List Char → Option (List Char)
  | 0, cs => some cs
  | _ + 1, [] => none
  | n + 1, c :: cs => if Char.isDigit c then matchDigitN n cs else none

/-- One literal character. -/
def matchLit (ch : Char) : List Char → Option (List Char)
  | [] => none
  | c :: cs => if c = ch then some cs else none

/-- The UUID pattern
`[0-9a-f]{8}-[0-9a-f]{4}-[0-9a-f]{4}-[0-9a-f]{4}-[0-9a-f]{12}` (with
`/i`), anchored at the current position. -/
def matchUUID (cs : List Char) : Option (List Char) :=
  (matchHexN 8 cs).bind (fun r => (matchLit '-' r).bind (fun r =>
    (matchHexN 4 r).bind (fun r => (matchLit '-' r).bind (fun r =>
      (matchHexN 4 r).bind (fun r => (matchLit '-' r).bind (fun r =>
        (matchHexN 4 r).bind (fun r => (matchLit '-' r).bind (fun r =>
          matchHexN 12 r))))))))

/-- Global replacement of UUIDs by `<UUID>` (first substitution of
`normalizeMessage`): scan left to right, at each position try the
fixed-length pattern, consume it on success and resume after the match.
The fuel argument is the length of the scanned text. -/
def replaceUUIDF : Nat → List Char → List Char
  | 0, cs => cs
  | _ + 1, [] => []
  | fuel + 1, c :: cs =>
    match matchUUID (c :: cs) with
    | some rest => "<UUID>".toList ++ replaceUUIDF fuel rest
    | none => c :: replaceUUIDF fuel cs

/-- Global replacement of `\b\d+\b` by `<NUM>` (second substitution).
`prevW` records whether the character before the current position is a
word character (the state the `\b` assertions read).  A maximal digit run
preceded by a non-word position is replaced only when it is also followed
by a non-word position; otherwise the run cannot match at any interior
position either (digits are word characters), so it is emitted verbatim
and scanning resumes after it. -/
def replaceNumsF : Nat → Bool → List Char → List Char
  | 0, _, cs => cs
  | _ + 1, _, [] => []
  | fuel + 1, prevW, c :: cs =>
    if prevW = false ∧ Char.isDigit c then
      if notWordAhead (cs.dropWhile Char.isDigit) then
        "<NUM>".toList ++ replaceNumsF fuel true (cs.dropWhile Char.isDigit)
      else
        (c :: cs.takeWhile Char.isDigit) ++ replaceNumsF fuel true (cs.dropWhile Char.isDigit)
    else c :: replaceNumsF fuel (isWordChar c) cs

/-- A character the URL body class `[^\s"']` accepts. -/
def isUrlChar (c : Char) : Bool :=
  ¬ (isJsSpace c ∨ c.toNat = 34 ∨ c.toNat = 39)

/-- The scheme part `https?:\/\/` (greedy optional `s`), anchored at the
current position. -/
def matchURLPrefix : List Char → Option (List Char)
  | 'h' :: 't' :: 't' :: 'p' :: rest =>
    match rest with
    | 's' :: ':' :: '/' :: '/' :: r2 => some r2
    | ':' :: '/' :: '/' :: r2 => some r2
    | _ => none
  | _ => none

/-- Global replacement of `https?:\/\/[^\s"']+` by `<URL>` (third
substitution): after the scheme, at least one body character, consumed
greedily. -/
def replaceURLF : Nat → List Char → List Char
  | 0, cs => cs
  | _ + 1, [] => []
  | fuel + 1, c :: cs =>
    match matchURLPrefix (c :: cs) with
    | some rest =>
      match rest with
      | r :: _ =>
        if isUrlChar r then
          "<URL>".toList ++ replaceURLF fuel (rest.dropWhile isUrlChar)
        else c :: replaceURLF fuel cs
      | [] => c :: replaceURLF fuel cs
    | none => c :: replaceURLF fuel cs

/-- A character of the file-path class `[\w\-./@]`. -/
def isFileChar (c : Char) : Bool :=
  isWordChar c ∨ c = '-' ∨ c = '.' ∨ c = '/' ∨ c = '@'

/-- The extension alternation `(js|ts|jsx|tsx|mjs|cjs)`.  The regex
engine tries the branches in order, and `js` / `ts` match before `jsx` /
`tsx` ever could, so those two branches are never exercised. -/
def matchExt : List Char → Option (List Char)
  | 'j' :: 's' :: r => some r
  | 't' :: 's' :: r => some r
  | 'm' :: 'j' :: 's' :: r => some r
  | 'c' :: 'j' :: 's' :: r => some r
  | _ => none

/-- The `[\w\-./@]+\.(ext)` tail of the file-path pattern with the
backtracking order of a greedy `+`: prefer consuming another class
character; when no longer match completes, end the run here and require
`.` plus an extension. -/
def fileBody : List Char → Option (List Char)
  | [] => none
  | c :: cs =>
    if isFileChar c then
      match fileBody cs with
      | some r => some r
      | none =>
        match cs with
        | c2 :: r2 => if c2 = '.' then matchExt r2 else none
        | [] => none
    else none

/-- Global replacement of `\/[\w\-./@]+\.(js|ts|jsx|tsx|mjs|cjs)` by
`<FILE>` (fourth substitution). -/
def replaceFileF : Nat → List Char → List Char
  | 0, cs => cs
  | _ + 1, [] => []
  | fuel + 1, c :: cs =>
    if c = '/' then
      match fileBody cs with
      | some rest => "<FILE>".toList ++ replaceFileF fuel rest
      | none => c :: replaceFileF fuel cs
    else c :: replaceFileF fuel cs

/-- The ISO timestamp pattern `\d{4}-\d{2}-\d{2}T\d{2}:\d{2}:\d{2}`,
anchored at the current position. -/
def matchTimestamp (cs : List Char) : Option (List Char) :=
  (matchDigitN 4 cs).bind (fun r => (matchLit '-' r).bind (fun r =>
    (matchDigitN 2 r).bind (fun r => (matchLit '-' r).bind (fun r =>
      (matchDigitN 2 r).bind (fun r => (matchLit 'T' r).bind (fun r =>
        (matchDigitN 2 r).bind (fun r => (matchLit ':' r).bind (fun r =>
          (matchDigitN 2 r).bind (fun r => (matchLit ':' r).bind (fun r =>
            matchDigitN 2 r))))))))))

/-- Global replacement of ISO timestamps by `<TIMESTAMP>` (fifth
substitution). -/
def replaceTimestampF : Nat → List Char → List Char
  | 0, cs => cs
  | _ + 1, [] => []
  | fuel + 1, c :: cs =>
    match matchTimestamp (c :: cs) with
    | some rest => "<TIMESTAMP>".toList ++ replaceTimestampF fuel rest
    | none => c :: replaceTimestampF fuel cs

/-- The memory-address pattern `0x[0-9a-f]+` under `/i` (so the `x` is
case-insensitive too), anchored at the current position; the hex run is
consumed greedily. -/
def matchAddr : List Char → Option (List Char)
  | '0' :: x :: r =>
    if x = 'x' ∨ x = 'X' then
      match r with
      | h :: _ => if isHexChar h then some (r.dropWhile isHexChar) else none
      | [] => none
    else none
  | _ => none

/-- Global replacement of memory addresses by `<ADDR>` (sixth
substitution). -/
def replaceAddrF : Nat → List Char → List Char
  | 0, cs => cs
  | _ + 1, [] => []
  | fuel + 1, c :: cs =>
    match matchAddr (c :: cs) with
    | some rest => "<ADDR>".toList ++ replaceAddrF fuel rest
    | none => c :: replaceAddrF fuel cs

/-- Global replacement of `\s+` runs by a single space (seventh
substitution). -/
def collapseWsF : Nat → List Char → List Char
  | 0, cs => cs
  | _ + 1, [] => []
  | fuel + 1, c :: cs =>
    if isJsSpace c then ' ' :: collapseWsF fuel (cs.dropWhile isJsSpace)
    else c :: collapseWsF fuel cs

/-- `String.prototype.trim`: strip whitespace from both ends. -/
def jsTrim (cs : List Char) : List Char :=
  ((cs.dropWhile isJsSpace).reverse.dropWhile isJsSpace).reverse

/-- `normalizeMessage`: the seven chained `replace` calls followed by
`trim`, in source order (UUIDs, whole-word numbers, URLs, file paths,
timestamps, memory addresses, whitespace collapsing).  Each scanner
receives its input length as fuel, which the scan never exhausts. -/
def normalizeMessage (message : String) : String :=
  let s1 := replaceUUIDF message.toList.length message.toList
  let s2 := replaceNumsF s1.length false s1
  let s3 := replaceURLF s2.length s2
  let s4 := replaceFileF s3.length s3
  let s5 := replaceTimestampF s4.length s4
  let s6 := replaceAddrF s5.length s5
  let s7 := collapseWsF s6.length s6
  String.mk (jsTrim s7)

/-- A character the regex `.` accepts (anything but a line
terminator). -/
def isDotChar (c : Char) : Bool :=
  ¬ (c.toNat = 10 ∨ c.toNat = 13 ∨ c.toNat = 8232 ∨ c.toNat = 8233)

/-- Ordered choice over candidate lengths `n, n-1, …, 1` — the
backtracking order of a greedy quantifier. -/
def tryLengthsDesc {α : Type} : Nat → (Nat → Option α) → Option α
  | 0, _ => none
  | m + 1, f =>
    match f (m + 1) with
    | some r => some r
    | none => tryLengthsDesc m f

/-- Ordered choice over `count` candidate lengths starting at `start`,
ascending — the backtracking order of a lazy quantifier. -/
def tryLengthsAsc {α : Type} : Nat → Nat → (Nat → Option α) → Option α
  | 0, _, _ => none
  | c + 1, start, f =>
    match f start with
    | some r => some r
    | none => tryLengthsAsc c (start + 1) f

/-- The `(\d+):(\d+)\)?$` tail of the frame pattern: greedy digit runs
for the line and column captures, an optional closing parenthesis, end of
line. -/
def numsPart (file : List Char) (rest : List Char) :
    Option (List Char × List Char × List Char) :=
  tryLengthsDesc (rest.takeWhile Char.isDigit).length (fun n1 =>
    let d1 := rest.take n1
    match rest.drop n1 with
    | ':' :: rest2 =>
      tryLengthsDesc (rest2.takeWhile Char.isDigit).length (fun n2 =>
        let d2 := rest2.take n2
        match rest2.drop n2 with
        | [] => some (file, d1, d2)
        | [c] => if c = ')' then some (file, d1, d2) else none
        | _ => none)
    | _ => none)

/-- The `(.+?):` part: the lazy file capture tries the shortest nonempty
prefix first, then requires a colon and the line/column tail. -/
def fileAndNums (R3 : List Char) : Option (List Char × List Char × List Char) :=
  tryLengthsAsc R3.length 1 (fun fl =>
    let file := R3.take fl
    if file.all isDotChar then
      match R3.drop fl with
      | ':' :: rest => numsPart file rest
      | _ => none
    else none)

/-- The greedy-optional `\(?`: prefer consuming an opening parenthesis,
fall back to not consuming it. -/
def afterGroup (R2 : List Char) : Option (List Char × List Char × List Char) :=
  match R2 with
  | c :: rest =>
    if c = '(' then
      match fileAndNums rest with
      | some r => some r
      | none => fileAndNums R2
    else fileAndNums R2
  | [] => fileAndNums R2

/-- The optional group `(?:.*?\s+)?` taken: lazy `.*?` (ascending
lengths, line-terminator-free), then greedy `\s+` (descending nonempty
space runs). -/
def groupPresent (R1 : List Char) : Option (List Char × List Char × List Char) :=
  tryLengthsAsc (R1.length + 1) 0 (fun a =>
    if (R1.take a).all isDotChar then
      let afterA := R1.drop a
      tryLengthsDesc ((afterA.takeWhile isJsSpace).length) (fun w =>
        afterGroup (afterA.drop w))
    else none)

/-- Everything after the literal `at` of
`at\s+(?:.*?\s+)?\(?(.+?):(\d+):(\d+)\)?$`: greedy `\s+`, then the
optional group (preferred taken, as `?` is greedy), then the rest. -/
def matchTail (R : List Char) : Option (List Char × List Char × List Char) :=
  tryLengthsDesc ((R.takeWhile isJsSpace).length) (fun s =>
    let R1 := R.drop s
    match groupPresent R1 with
    | some r => some r
    | none => afterGroup R1)

/-- Leftmost match of the frame pattern within a line: try the pattern at
each occurrence of the literal `at`, left to right. -/
def frameScan : List Char → Option (List Char × List Char × List Char)
  | [] => none
  | 'a' :: 't' :: rest =>
    (match matchTail rest with
     | some r => some r
     | none => frameScan ('t' :: rest))
  | _ :: cs => frameScan cs

/-- The `(src|app|pages|components)/` alternation at the current
position (the branches start with distinct letters, so the order cannot
matter here). -/
def altAt : List Char → Option (String × List Char)
  | 's' :: 'r' :: 'c' :: '/' :: r => some ("src", r)
  | 'a' :: 'p' :: 'p' :: '/' :: r => some ("app", r)
  | 'p' :: 'a' :: 'g' :: 'e' :: 's' :: '/' :: r => some ("pages", r)
  | 'c' :: 'o' :: 'm' :: 'p' :: 'o' :: 'n' :: 'e' :: 'n' :: 't' :: 's' :: '/' :: r =>
      some ("components", r)
  | _ => none

/-- The last position where `/(src|app|pages|components)/` matches — the
one the greedy `^.*` of the first file-normalisation replace selects. -/
def lastSlashAlt : List Char → Option (String × List Char)
  | [] => none
  | '/' :: cs =>
    (match lastSlashAlt cs with
     | some r => some r
     | none => altAt cs)
  | _ :: cs => lastSlashAlt cs

/-- `file.replace(/^.*\/(src|app|pages|components)\//, '$1/')`. -/
def replaceSrcPrefix (file : List Char) : List Char :=
  match lastSlashAlt file with
  | some (alt, rest) => alt.toList ++ '/' :: rest
  | none => file

/-- `.replace(/^.*\//, '')`: strip through the last slash, if any. -/
def afterLastSlash (cs : List Char) : List Char :=
  if cs.contains '/' then (cs.reverse.takeWhile (fun c => ¬ c = '/')).reverse
  else cs

/-- The normalised file of the extracted frame (both replaces chained). -/
def normalizedFile (file : List Char) : List Char :=
  afterLastSlash (replaceSrcPrefix file)

/-- `stack.split('\n')`. -/
def splitOnNl : List Char → List (List Char)
  | [] => [[]]
  | c :: cs =>
    if c.toNat = 10 then [] :: splitOnNl cs
    else
      match splitOnNl cs with
      | l :: ls => (c :: l) :: ls
      | [] => [[c]]

/-- The loop of `extractFirstMeaningfulFrame`: skip lines without `at `,
skip bundler/vendor frames, return the first line where the frame
pattern matches, rendered `normalizedFile:line:column`. -/
def framesLoop : List (List Char) → Option String
  | [] => none
  | line :: rest =>
    if ¬ containsList line ("at ".toList) then framesLoop rest
    else if containsList line ("node_modules".toList)
        || containsList line ("<anonymous>".toList)
        || containsList line ("webpack".toList)
        || containsList line ("turbopack".toList) then
      framesLoop rest
    else
      match frameScan line with
      | some (file, lineNum, col) =>
        some (String.mk (normalizedFile file) ++ ":" ++ String.mk lineNum
          ++ ":" ++ String.mk col)
      | none => framesLoop rest

/-- `extractFirstMeaningfulFrame(stack)`. -/
def extractFirstMeaningfulFrame (stack : String) : Option String :=
  framesLoop (splitOnNl stack.toList)

/-- UTF-16 code units of a string, as `charCodeAt` enumerates them
(astral scalars become surrogate pairs). -/
def utf16Units : List Char → List Nat
  | [] => []
  | c :: cs =>
    (if c.toNat < 65536 then [c.toNat]
     else [55296 + (c.toNat - 65536) / 1024, 56320 + (c.toNat - 65536) % 1024])
    ++ utf16Units cs

/-- The djb2-xor loop of `hashString`: `hash = (hash * 33) ^ code` on a
signed 32-bit accumulator starting at 5381, tracked here as the unsigned
residue modulo `2 ^ 32` (the `>>> 0` view). -/
def hashState (units : List Nat) : Nat :=
  units.foldl (fun h c => ((h * 33) % 4294967296) ^^^ c) 5381

/-- Lowercase hex digit. -/
def hexDigitChar (n : Nat) : Char :=
  if n < 10 then Char.ofNat (48 + n) else Char.ofNat (87 + n)

/-- Hex digits of a number below `16 ^ fuel`, most significant first. -/
def hexDigitsF : Nat → Nat → List Char
  | 0, _ => []
  | fuel + 1, n =>
    if n = 0 then [] else hexDigitsF fuel (n / 16) ++ [hexDigitChar (n % 16)]

/-- `Number.prototype.toString(16)` for an unsigned 32-bit value. -/
def natToHex (n : Nat) : String :=
  if n = 0 then "0" else String.mk (hexDigitsF 8 n)

/-- `.padStart(8, '0')`. -/
def padStart8 (s : String) : String :=
  String.mk (List.replicate (8 - s.toList.length) '0' ++ s.toList)

/-- `hashString(str)`: `((hash * 33) ^ charCodeAt(i))` folded over the
code units, viewed unsigned and rendered as 8 hex digits. -/
def hashString (str : String) : String :=
  padStart8 (natToHex (hashState (utf16Units str.toList)))

/-- `Array.prototype.join('|')`. -/
def joinBar : List String → String
  | [] => ""
  | [s] => s
  | s :: rest => s ++ "|" ++ joinBar rest

/-- The error argument of `generateFingerprint`: `error.name`,
`error.message`, and the optional `error.stack`. -/
structure JsError where
  name : String
  message : String
  stack : Option String := none

/-- `FingerprintConfig`: the three optional switches and the optional
caller override. -/
structure FingerprintConfig where
  useMessage : Option Bool := none
  useType : Option Bool := none
  useStackFrame : Option Bool := none
  customFingerprint : Option (JsError → ErrorEvent → String) := none

/-- `error.stack` as the truthiness test and the extractor see it:
the string when present, the falsy empty string when absent. -/
def stackString : Option String → String
  | some s => s
  | none => ""

/-- The `parts` array of `generateFingerprint`: the error name (falling
back to `Error` when the name is empty, per `error.name || 'Error'`)
unless `useType` is `false`; the normalised message unless `useMessage`
is `false`; and the first meaningful stack frame when `useStackFrame` is
not `false`, the stack is truthy, and a frame is extracted. -/
def fingerprintParts (error : JsError) (config : Option FingerprintConfig) :
    List String :=
  (if (config.bind FingerprintConfig.useType) ≠ some false then
    [if error.name = "" then "Error" else error.name]
  else [])
  ++ (if (config.bind FingerprintConfig.useMessage) ≠ some false then
    [normalizeMessage error.message]
  else [])
  ++ (if (config.bind FingerprintConfig.useStackFrame) ≠ some false
        ∧ stackString error.stack ≠ "" then
      match extractFirstMeaningfulFrame (stackString error.stack) with
      | some frame => [frame]
      | none => []
    else [])

/-- The composite pre-hash key `parts.join('|')`. -/
def fingerprintKey (error : JsError) (config : Option FingerprintConfig) : String :=
  joinBar (fingerprintParts error config)

/-- `generateFingerprint(error, event, config?)`: the caller override
replaces everything when present; otherwise the composite key is hashed
with `hashString`. -/
def generateFingerprint (error : JsError) (event : ErrorEvent)
    (config : Option FingerprintConfig := none) : String :=
  match config.bind FingerprintConfig.customFingerprint with
  | some custom => custom error event
  | none => hashString (fingerprintKey error config)

/-- A digit is a word character. -/
theorem isWordChar_of_isDigit (c : Char) (h : Char.isDigit c = true) :
    isWordChar c = true := by
  simp [isWordChar, h]

/-- Dropping a satisfied prefix continues into the appended tail. -/
theorem dropWhile_append_of_all {p : Char → Bool} :
    ∀ l r : List Char, (∀ c ∈ l, p c = true) →
      (l ++ r).dropWhile p = r.dropWhile p := by
  intro l
  induction l with
  | nil => intro r _; rfl
  | cons c t ih =>
    intro r hall
    simp only [List.cons_append, List.dropWhile_cons]
    rw [hall c (by simp)]
    simp only [if_true]
    exact ih r (fun x hx => hall x (by simp [hx]))

/-- If some element of the first list fails the predicate, `takeWhile`
and `dropWhile` of the concatenation split inside the first list. -/
theorem takeDropWhile_append_of_bad {p : Char → Bool} :
    ∀ l r : List Char, (∃ c ∈ l, p c = false) →
      (l ++ r).takeWhile p = l.takeWhile p
      ∧ (l ++ r).dropWhile p = l.dropWhile p ++ r := by
  intro l
  induction l with
  | nil =>
    intro r h
    obtain ⟨c, hc, _⟩ := h
    exact absurd hc (by simp)
  | cons c t ih =>
    intro r h
    by_cases hc : p c = true
    · have hbad : ∃ x ∈ t, p x = false := by
        obtain ⟨x, hx, hpx⟩ := h
        rcases List.mem_cons.mp hx with h1 | h2
        · rw [h1] at hpx; rw [hpx] at hc; cases hc
        · exact ⟨x, h2, hpx⟩
      have := ih r hbad
      simp only [List.cons_append, List.takeWhile_cons, List.dropWhile_cons, hc,
        if_true]
      exact ⟨by rw [this.1], by rw [this.2]⟩
    · have hc' : p c = false := by simpa using hc
      simp [List.takeWhile_cons, List.dropWhile_cons, hc']

/-- With a failing element present, the dropped-prefix remainder is
nonempty. -/
theorem dropWhile_ne_nil_of_bad {p : Char → Bool} :
    ∀ l : List Char, (∃ c ∈ l, p c = false) → l.dropWhile p ≠ [] := by
  intro l
  induction l with
  | nil =>
    intro h
    obtain ⟨c, hc, _⟩ := h
    exact absurd hc (by simp)
  | cons c t ih =>
    intro h
    by_cases hc : p c = true
    · have hbad : ∃ x ∈ t, p x = false := by
        obtain ⟨x, hx, hpx⟩ := h
        rcases List.mem_cons.mp hx with h1 | h2
        · rw [h1] at hpx; rw [hpx] at hc; cases hc
        · exact ⟨x, h2, hpx⟩
      simp only [List.dropWhile_cons, hc, if_true]
      exact ih hbad
    · have hc' : p c = false := by simpa using hc
      simp [List.dropWhile_cons, hc']

/-- A nonempty `dropWhile` remainder ends where the list ends. -/
theorem getLast?_dropWhile {p : Char → Bool} :
    ∀ l : List Char, l.dropWhile p ≠ [] →
      (l.dropWhile p).getLast? = l.getLast? := by
  intro l
  induction l with
  | nil => intro h; simp at h
  | cons c t ih =>
    intro h
    by_cases hc : p c = true
    · simp only [List.dropWhile_cons, hc, if_true] at h ⊢
      have ht : t ≠ [] := by
        intro he
        rw [he] at h
        simp at h
      rw [ih h]
      cases t with
      | nil => exact absurd rfl ht
      | cons b u => simp [List.getLast?_cons_cons]
    · have hc' : p c = false := by simpa using hc
      simp [List.dropWhile_cons, hc']

/-- A head that is not a word character is not a digit, so the digit run
is empty. -/
theorem dropWhile_digit_id_of_notWordAhead :
    ∀ l : List Char, notWordAhead l = true → l.dropWhile Char.isDigit = l := by
  intro l h
  cases l with
  | nil => rfl
  | cons c t =>
    simp only [notWordAhead] at h
    have hd : Char.isDigit c = false := by
      by_cases hdig : Char.isDigit c = true
      · have := isWordChar_of_isDigit c hdig
        simp [this] at h
      · simpa using hdig
    simp [List.dropWhile_cons, hd]

/-- The result of `replaceNumsF` does not depend on the fuel, as long as
the fuel covers the length of the text. -/
theorem replaceNumsF_fuel :
    ∀ bound : Nat, ∀ cs : List Char, cs.length ≤ bound →
      ∀ f g : Nat, ∀ prevW : Bool, cs.length ≤ f → cs.length ≤ g →
        replaceNumsF f prevW cs = replaceNumsF g prevW cs := by
  intro bound
  induction bound using Nat.strong_induction_on with
  | _ bound ih =>
    intro cs hcs f g prevW hf hg
    cases cs with
    | nil => cases f <;> cases g <;> rfl
    | cons c t =>
      obtain ⟨f1, rfl⟩ : ∃ f1, f = f1 + 1 := ⟨f - 1, by simp at hf; omega⟩
      obtain ⟨g1, rfl⟩ : ∃ g1, g = g1 + 1 := ⟨g - 1, by simp at hg; omega⟩
      simp only [replaceNumsF]
      have hlen : (t.dropWhile Char.isDigit).length ≤ t.length :=
        List.Sublist.length_le (List.dropWhile_sublist Char.isDigit)
      simp only [List.length_cons] at hcs hf hg
      by_cases hcond : prevW = false ∧ Char.isDigit c = true
      · simp only [hcond, and_self, if_true]
        by_cases hnw : notWordAhead (t.dropWhile Char.isDigit) = true
        · simp only [hnw, if_true]
          rw [ih t.length (by omega) (t.dropWhile Char.isDigit) (by omega)
            f1 g1 true (by omega) (by omega)]
        · simp only [hnw, if_false]
          rw [ih t.length (by omega) (t.dropWhile Char.isDigit) (by omega)
            f1 g1 true (by omega) (by omega)]
      · simp only [hcond, if_false]
        rw [ih t.length (by omega) t (by omega) f1 g1 (isWordChar c)
          (by omega) (by omega)]

/-- A whole-word digit run at the start of the remaining text (non-word
position behind, non-word position ahead) is replaced by `<NUM>` and the
scan resumes after it. -/
theorem replaceNumsF_digitRun (d post : List Char) (hd : d ≠ [])
    (hdd : ∀ c ∈ d, Char.isDigit c = true) (hpost : notWordAhead post = true)
    (f1 : Nat) :
    replaceNumsF (f1 + 1) false (d ++ post)
      = "<NUM>".toList ++ replaceNumsF f1 true post := by
  obtain ⟨c, t, rfl⟩ : ∃ a l, d = a :: l := by
    cases d with
    | nil => exact absurd rfl hd
    | cons a l => exact ⟨a, l, rfl⟩
  have hc : Char.isDigit c = true := hdd c (by simp)
  have hrest : (t ++ post).dropWhile Char.isDigit = post := by
    rw [dropWhile_append_of_all t post (fun x hx => hdd x (by simp [hx]))]
    exact dropWhile_digit_id_of_notWordAhead post hpost
  simp only [List.cons_append, replaceNumsF, List.append_eq, hc, hrest, hpost,
    and_self, if_true]

/-- Two texts that agree except for one whole-word digit run (the same
surrounding `pre`/`post`, digit runs `d1` vs `d2`) normalise to the same
result under the `\b\d+\b` replacement, from any scanner state that is
consistent with the prefix. -/
theorem replaceNumsF_agree (d1 d2 post : List Char)
    (hd1 : d1 ≠ []) (hd1d : ∀ c ∈ d1, Char.isDigit c = true)
    (hd2 : d2 ≠ []) (hd2d : ∀ c ∈ d2, Char.isDigit c = true)
    (hpost : notWordAhead post = true) :
    ∀ bound : Nat, ∀ pre : List Char, pre.length ≤ bound →
      ∀ f g : Nat, ∀ prevW : Bool,
        (pre ++ d1 ++ post).length ≤ f → (pre ++ d2 ++ post).length ≤ g →
        (pre = [] → prevW = false) →
        pre.getLast?.all (fun c => ¬ isWordChar c) = true →
        replaceNumsF f prevW (pre ++ d1 ++ post)
          = replaceNumsF g prevW (pre ++ d2 ++ post) := by
  have hd1len : 1 ≤ d1.length := by
    cases d1 with
    | nil => exact absurd rfl hd1
    | cons a l => simp
  have hd2len : 1 ≤ d2.length := by
    cases d2 with
    | nil => exact absurd rfl hd2
    | cons a l => simp
  intro bound
  induction bound using Nat.strong_induction_on with
  | _ bound ih =>
    intro pre hpre f g prevW hf hg hbase hlast
    cases pre with
    | nil =>
      have hw : prevW = false := hbase rfl
      subst hw
      have hflen : d1.length + post.length ≤ f := by simpa using hf
      have hglen : d2.length + post.length ≤ g := by simpa using hg
      obtain ⟨f1, rfl⟩ : ∃ f1, f = f1 + 1 := ⟨f - 1, by omega⟩
      obtain ⟨g1, rfl⟩ : ∃ g1, g = g1 + 1 := ⟨g - 1, by omega⟩
      simp only [List.nil_append]
      rw [replaceNumsF_digitRun d1 post hd1 hd1d hpost f1,
        replaceNumsF_digitRun d2 post hd2 hd2d hpost g1,
        replaceNumsF_fuel post.length post (le_refl _) f1 g1 true
          (by omega) (by omega)]
    | cons p ps =>
      have hflen : ps.length + 1 + d1.length + post.length ≤ f := by
        simpa [Nat.add_comm, Nat.add_left_comm, Nat.add_assoc] using hf
      have hglen : ps.length + 1 + d2.length + post.length ≤ g := by
        simpa [Nat.add_comm, Nat.add_left_comm, Nat.add_assoc] using hg
      have hprelen : ps.length + 1 ≤ bound := by simpa using hpre
      obtain ⟨f1, rfl⟩ : ∃ f1, f = f1 + 1 := ⟨f - 1, by omega⟩
      obtain ⟨g1, rfl⟩ : ∃ g1, g = g1 + 1 := ⟨g - 1, by omega⟩
      simp only [List.cons_append, replaceNumsF, List.append_eq]
      by_cases hcond : prevW = false ∧ Char.isDigit p = true
      · -- a digit run begins inside `pre`
        have hps : ps ≠ [] := by
          intro he
          subst he
          have hword : isWordChar p = true := isWordChar_of_isDigit p hcond.2
          simp [hword] at hlast
        obtain ⟨q, qs, rfl⟩ : ∃ a l, ps = a :: l := by
          cases ps with
          | nil => exact absurd rfl hps
          | cons a l => exact ⟨a, l, rfl⟩
        have hQlenAux : (List.dropWhile Char.isDigit (q :: qs)).length
            ≤ (q :: qs).length :=
          List.Sublist.length_le (List.dropWhile_sublist Char.isDigit)
        have hQlen : (List.dropWhile Char.isDigit (q :: qs)).length
            ≤ qs.length + 1 := by simpa using hQlenAux
        have hflen2 : qs.length + 2 + d1.length + post.length ≤ f1 + 1 := by
          simp only [List.length_cons] at hflen
          omega
        have hglen2 : qs.length + 2 + d2.length + post.length ≤ g1 + 1 := by
          simp only [List.length_cons] at hglen
          omega
        have hprelen2 : qs.length + 2 ≤ bound := by
          simp only [List.length_cons] at hprelen
          omega
        have hlast2 : (q :: qs).getLast?.all (fun c => ¬ isWordChar c) = true := by
          rw [← List.getLast?_cons_cons]
          exact hlast
        have hne : (q :: qs) ≠ [] := List.cons_ne_nil q qs
        have hlastc : (q :: qs).getLast? = some ((q :: qs).getLast hne) :=
          List.getLast?_eq_getLast_of_ne_nil hne
        have hlastmem : (q :: qs).getLast hne ∈ q :: qs := List.getLast_mem hne
        have hlastword : isWordChar ((q :: qs).getLast hne) = false := by
          rw [hlastc] at hlast2
          simpa using hlast2
        have hlastdigit : Char.isDigit ((q :: qs).getLast hne) = false := by
          by_cases hdig : Char.isDigit ((q :: qs).getLast hne) = true
          · rw [isWordChar_of_isDigit _ hdig] at hlastword
            cases hlastword
          · simpa using hdig
        have hbad : ∃ c ∈ q :: qs, Char.isDigit c = false :=
          ⟨(q :: qs).getLast hne, hlastmem, hlastdigit⟩
        have hsplit1 := takeDropWhile_append_of_bad (q :: qs) (d1 ++ post) hbad
        have hsplit2 := takeDropWhile_append_of_bad (q :: qs) (d2 ++ post) hbad
        have hps' : List.dropWhile Char.isDigit (q :: qs) ≠ [] :=
          dropWhile_ne_nil_of_bad (q :: qs) hbad
        obtain ⟨a, as, has⟩ : ∃ x l,
            List.dropWhile Char.isDigit (q :: qs) = x :: l := by
          cases hx : List.dropWhile Char.isDigit (q :: qs) with
          | nil => exact absurd hx hps'
          | cons x l => exact ⟨x, l, rfl⟩
        have hlast' : (List.dropWhile Char.isDigit (q :: qs)).getLast?.all
            (fun c => ¬ isWordChar c) = true := by
          rw [getLast?_dropWhile (q :: qs) hps', hlastc]
          simpa using hlastword
        have hih := ih (List.dropWhile Char.isDigit (q :: qs)).length
          (by omega) (List.dropWhile Char.isDigit (q :: qs)) (le_refl _) f1 g1
          true (by simp only [List.length_append]; omega)
          (by simp only [List.length_append]; omega)
          (fun he => absurd he hps') hlast'
        have hcondeq : notWordAhead (List.dropWhile Char.isDigit (q :: qs)
              ++ (d1 ++ post))
            = notWordAhead (List.dropWhile Char.isDigit (q :: qs)
              ++ (d2 ++ post)) := by
          rw [has]
          simp [notWordAhead]
        simp only [hcond, and_self, if_true, List.append_assoc]
        rw [hsplit1.2, hsplit2.2]
        simp only [List.append_assoc] at hih
        by_cases hnw : notWordAhead (List.dropWhile Char.isDigit (q :: qs)
            ++ (d1 ++ post)) = true
        · have hnw2 : notWordAhead (List.dropWhile Char.isDigit (q :: qs)
              ++ (d2 ++ post)) = true := hcondeq ▸ hnw
          simp only [hnw, hnw2, if_true]
          rw [hih]
        · have hnw2 : ¬ notWordAhead (List.dropWhile Char.isDigit (q :: qs)
              ++ (d2 ++ post)) = true := fun h => hnw (by rw [hcondeq]; exact h)
          simp only [hnw, hnw2, if_false]
          rw [hsplit1.1, hsplit2.1, hih]
      · -- the scanner steps over one character of `pre`
        simp only [hcond, if_false]
        have hbase' : ps = [] → isWordChar p = false := by
          intro he
          subst he
          simpa using hlast
        have hlast' : ps.getLast?.all (fun c => ¬ isWordChar c) = true := by
          cases ps with
          | nil => simp
          | cons q qs =>
            rw [← List.getLast?_cons_cons]
            exact hlast
        rw [ih ps.length (by omega) ps (le_refl _) f1 g1 (isWordChar p)
          (by simp only [List.length_append]; omega)
          (by simp only [List.length_append]; omega) hbase' hlast']

/-- A successful fixed-width hex match consumes exactly `n` hex digits. -/
theorem matchHexN_spec : ∀ (n : Nat) (cs r : List Char), matchHexN n cs = some r →
    ∃ w, cs = w ++ r ∧ w.length = n ∧ ∀ c ∈ w, isHexChar c = true := by
  intro n
  induction n with
  | zero =>
    intro cs r h
    simp only [matchHexN, Option.some.injEq] at h
    exact ⟨[], by simp [h], rfl, by simp⟩
  | succ m ih =>
    intro cs r h
    cases cs with
    | nil => simp [matchHexN] at h
    | cons c t =>
      simp only [matchHexN] at h
      by_cases hc : isHexChar c = true
      · rw [if_pos hc] at h
        obtain ⟨w, hw, hlen, hhex⟩ := ih t r h
        refine ⟨c :: w, by simp [hw], by simp [hlen], ?_⟩
        intro x hx
        rcases List.mem_cons.mp hx with h1 | h1
        · subst h1
          exact hc
        · exact hhex x h1
      · simp [hc] at h

/-- Replay a fixed-width hex match on any extension of its window. -/
theorem matchHexN_replay : ∀ (w : List Char) (n : Nat), w.length = n →
    (∀ c ∈ w, isHexChar c = true) →
    ∀ rest, matchHexN n (w ++ rest) = some rest := by
  intro w
  induction w with
  | nil =>
    intro n hn _ rest
    subst hn
    simp [matchHexN]
  | cons c t ih =>
    intro n hn hhex rest
    subst hn
    have hc : isHexChar c = true := hhex c (by simp)
    simp only [List.length_cons, List.cons_append, matchHexN, hc, if_true]
    exact ih t.length rfl (fun x hx => hhex x (by simp [hx])) rest

/-- A successful literal match consumes exactly that character. -/
theorem matchLit_spec (ch : Char) (cs r : List Char) (h : matchLit ch cs = some r) :
    cs = ch :: r := by
  cases cs with
  | nil => simp [matchLit] at h
  | cons c t =>
    simp only [matchLit] at h
    by_cases hc : c = ch
    · rw [if_pos hc] at h
      simp only [Option.some.injEq] at h
      rw [hc, h]
    · simp [hc] at h

/-- Replay a literal match. -/
theorem matchLit_replay (ch : Char) (rest : List Char) :
    matchLit ch (ch :: rest) = some rest := by
  simp [matchLit]

/-- Replay the whole UUID pattern on any extension of a window split into
its five hex segments. -/
theorem matchUUID_replay (w1 w2 w3 w4 w5 : List Char)
    (l1 : w1.length = 8) (l2 : w2.length = 4) (l3 : w3.length = 4)
    (l4 : w4.length = 4) (l5 : w5.length = 12)
    (x1 : ∀ c ∈ w1, isHexChar c = true) (x2 : ∀ c ∈ w2, isHexChar c = true)
    (x3 : ∀ c ∈ w3, isHexChar c = true) (x4 : ∀ c ∈ w4, isHexChar c = true)
    (x5 : ∀ c ∈ w5, isHexChar c = true) (rest : List Char) :
    matchUUID ((w1 ++ '-' :: (w2 ++ '-' :: (w3 ++ '-' :: (w4 ++ '-' :: w5)))) ++ rest)
      = some rest := by
  unfold matchUUID
  simp only [List.append_assoc, List.cons_append]
  rw [matchHexN_replay w1 8 l1 x1, Option.some_bind,
    matchLit_replay, Option.some_bind,
    matchHexN_replay w2 4 l2 x2, Option.some_bind,
    matchLit_replay, Option.some_bind,
    matchHexN_replay w3 4 l3 x3, Option.some_bind,
    matchLit_replay, Option.some_bind,
    matchHexN_replay w4 4 l4 x4, Option.some_bind,
    matchLit_replay, Option.some_bind,
    matchHexN_replay w5 12 l5 x5]

/-- A successful UUID match consumes a 36-character window of hex digits
and dashes, and that window matches again in front of any continuation. -/
theorem matchUUID_spec (cs r : List Char) (h : matchUUID cs = some r) :
    ∃ w, cs = w ++ r ∧ w.length = 36
      ∧ (∀ c ∈ w, isHexChar c = true ∨ c = '-')
      ∧ ∀ rest, matchUUID (w ++ rest) = some rest := by
  unfold matchUUID at h
  rw [Option.bind_eq_some] at h
  obtain ⟨r1, h1, h⟩ := h
  rw [Option.bind_eq_some] at h
  obtain ⟨r2, hL1, h⟩ := h
  rw [Option.bind_eq_some] at h
  obtain ⟨r3, h3, h⟩ := h
  rw [Option.bind_eq_some] at h
  obtain ⟨r4, hL2, h⟩ := h
  rw [Option.bind_eq_some] at h
  obtain ⟨r5, h5, h⟩ := h
  rw [Option.bind_eq_some] at h
  obtain ⟨r6, hL3, h⟩ := h
  rw [Option.bind_eq_some] at h
  obtain ⟨r7, h7, h⟩ := h
  rw [Option.bind_eq_some] at h
  obtain ⟨r8, hL4, h9⟩ := h
  obtain ⟨w1, e1, len1, hex1⟩ := matchHexN_spec 8 cs r1 h1
  have d1 := matchLit_spec '-' r1 r2 hL1
  obtain ⟨w2, e2, len2, hex2⟩ := matchHexN_spec 4 r2 r3 h3
  have d2 := matchLit_spec '-' r3 r4 hL2
  obtain ⟨w3, e3, len3, hex3⟩ := matchHexN_spec 4 r4 r5 h5
  have d3 := matchLit_spec '-' r5 r6 hL3
  obtain ⟨w4, e4, len4, hex4⟩ := matchHexN_spec 4 r6 r7 h7
  have d4 := matchLit_spec '-' r7 r8 hL4
  obtain ⟨w5, e5, len5, hex5⟩ := matchHexN_spec 12 r8 r h9
  refine ⟨w1 ++ '-' :: (w2 ++ '-' :: (w3 ++ '-' :: (w4 ++ '-' :: w5))), ?_, ?_, ?_, ?_⟩
  · rw [e1, d1, e2, d2, e3, d3, e4, d4, e5]
    simp [List.append_assoc]
  · simp only [List.length_append, List.length_cons]
    omega
  · intro c hc
    simp only [List.mem_append, List.mem_cons] at hc
    rcases hc with h' | h' | h' | h' | h' | h' | h' | h' | h'
    · exact Or.inl (hex1 c h')
    · exact Or.inr h'
    · exact Or.inl (hex2 c h')
    · exact Or.inr h'
    · exact Or.inl (hex3 c h')
    · exact Or.inr h'
    · exact Or.inl (hex4 c h')
    · exact Or.inr h'
    · exact Or.inl (hex5 c h')
  · exact matchUUID_replay w1 w2 w3 w4 w5 len1 len2 len3 len4 len5
      hex1 hex2 hex3 hex4 hex5

/-- Reduction of one UUID scanner step on a successful match. -/
theorem replaceUUIDF_step_match (f : Nat) (c : Char) (cs rest : List Char)
    (hm : matchUUID (c :: cs) = some rest) :
    replaceUUIDF (f + 1) (c :: cs) = "<UUID>".toList ++ replaceUUIDF f rest := by
  simp only [replaceUUIDF, hm]

/-- Reduction of one UUID scanner step on a failed match. -/
theorem replaceUUIDF_step_skip (f : Nat) (c : Char) (cs : List Char)
    (hm : matchUUID (c :: cs) = none) :
    replaceUUIDF (f + 1) (c :: cs) = c :: replaceUUIDF f cs := by
  simp only [replaceUUIDF, hm]

/-- If the character before the current position is neither a hex digit
nor a dash, a UUID match at this position must lie 36 or more characters
inside the prefix `pre`: it cannot spill over into the continuation, and
it matches again in front of any other continuation. -/
theorem matchUUID_pre_steal (pre tail r : List Char)
    (hpre : pre ≠ [])
    (hlast : pre.getLast?.all (fun c => ¬ (isHexChar c ∨ c = '-')) = true)
    (hm : matchUUID (pre ++ tail) = some r) :
    37 ≤ pre.length ∧ r = pre.drop 36 ++ tail
      ∧ ∀ Y, matchUUID (pre ++ Y) = some (pre.drop 36 ++ Y) := by
  obtain ⟨w, he, hlen, hchars, hrep⟩ := matchUUID_spec _ r hm
  have hlastc : ¬ (isHexChar (pre.getLast hpre) = true ∨ pre.getLast hpre = '-') := by
    rw [List.getLast?_eq_getLast_of_ne_nil hpre] at hlast
    simpa using hlast
  have h37 : 37 ≤ pre.length := by
    by_contra hlt
    push_neg at hlt
    have hle : pre.length ≤ 36 := by omega
    have htake : (pre ++ tail).take 36 = pre ++ tail.take (36 - pre.length) := by
      rw [List.take_append_eq_append_take, List.take_of_length_le hle]
    have hw : w = pre ++ tail.take (36 - pre.length) := by
      rw [← htake, he, List.take_left' hlen]
    have hmem : pre.getLast hpre ∈ w := by
      rw [hw]
      exact List.mem_append_left _ (List.getLast_mem hpre)
    exact hlastc (hchars _ hmem)
  have h36 : 36 ≤ pre.length := by omega
  have hw : w = pre.take 36 := by
    have h1 : (pre ++ tail).take 36 = pre.take 36 := List.take_append_of_le_length h36
    rw [← h1, he, List.take_left' hlen]
  have hall : ∀ Y, matchUUID (pre ++ Y) = some (pre.drop 36 ++ Y) := by
    intro Y
    have hsplit : pre ++ Y = w ++ (pre.drop 36 ++ Y) := by
      rw [hw, ← List.append_assoc, List.take_append_drop]
    rw [hsplit]
    exact hrep _
  have h2 := hall tail
  rw [hm] at h2
  exact ⟨h37, (Option.some.injEq _ _).mp h2, hall⟩

/-- The result of `replaceUUIDF` does not depend on the fuel, as long as
the fuel covers the length of the text. -/
theorem replaceUUIDF_fuel :
    ∀ bound : Nat, ∀ cs : List Char, cs.length ≤ bound →
      ∀ f g : Nat, cs.length ≤ f → cs.length ≤ g →
        replaceUUIDF f cs = replaceUUIDF g cs := by
  intro bound
  induction bound using Nat.strong_induction_on with
  | _ bound ih =>
    intro cs hcs f g hf hg
    cases cs with
    | nil => cases f <;> cases g <;> rfl
    | cons c t =>
      simp only [List.length_cons] at hcs hf hg
      obtain ⟨f1, rfl⟩ : ∃ f1, f = f1 + 1 := ⟨f - 1, by omega⟩
      obtain ⟨g1, rfl⟩ : ∃ g1, g = g1 + 1 := ⟨g - 1, by omega⟩
      cases hm : matchUUID (c :: t) with
      | some rest =>
        obtain ⟨w, he, hlen, -, -⟩ := matchUUID_spec _ rest hm
        have hrl : rest.length + 36 = t.length + 1 := by
          have hel := congrArg List.length he
          simp only [List.length_append, List.length_cons, hlen] at hel
          omega
        rw [replaceUUIDF_step_match f1 c t rest hm,
          replaceUUIDF_step_match g1 c t rest hm,
          ih t.length (by omega) rest (by omega) f1 g1 (by omega) (by omega)]
      | none =>
        rw [replaceUUIDF_step_skip f1 c t hm, replaceUUIDF_step_skip g1 c t hm,
          ih t.length (by omega) t (le_refl _) f1 g1 (by omega) (by omega)]

/-- Two texts that agree except for one embedded UUID (the same
surrounding `pre`/`post`, UUID windows `u1` vs `u2`, the prefix not
ending in a hex digit or dash) are mapped to the same result by the UUID
substitution. -/
theorem replaceUUIDF_agree (u1 u2 : List Char)
    (hu1 : matchUUID u1 = some []) (hu2 : matchUUID u2 = some []) :
    ∀ bound : Nat, ∀ pre : List Char, pre.length ≤ bound →
      ∀ f g : Nat, ∀ post : List Char,
        (pre ++ (u1 ++ post)).length ≤ f → (pre ++ (u2 ++ post)).length ≤ g →
        pre.getLast?.all (fun c => ¬ (isHexChar c ∨ c = '-')) = true →
        replaceUUIDF f (pre ++ (u1 ++ post)) = replaceUUIDF g (pre ++ (u2 ++ post)) := by
  have hrep1 : ∀ rest, matchUUID (u1 ++ rest) = some rest := by
    obtain ⟨w, e, -, -, rep⟩ := matchUUID_spec u1 [] hu1
    rw [List.append_nil] at e
    intro rest
    rw [e]
    exact rep rest
  have hlen1 : u1.length = 36 := by
    obtain ⟨w, e, len, -, -⟩ := matchUUID_spec u1 [] hu1
    rw [List.append_nil] at e
    rw [e, len]
  have hrep2 : ∀ rest, matchUUID (u2 ++ rest) = some rest := by
    obtain ⟨w, e, -, -, rep⟩ := matchUUID_spec u2 [] hu2
    rw [List.append_nil] at e
    intro rest
    rw [e]
    exact rep rest
  have hlen2 : u2.length = 36 := by
    obtain ⟨w, e, len, -, -⟩ := matchUUID_spec u2 [] hu2
    rw [List.append_nil] at e
    rw [e, len]
  intro bound
  induction bound using Nat.strong_induction_on with
  | _ bound ih =>
    intro pre hpre f g post hf hg hlast
    cases pre with
    | nil =>
      simp only [List.nil_append] at hf hg ⊢
      obtain ⟨c1, t1, hc1⟩ : ∃ a l, u1 = a :: l := by
        cases u1 with
        | nil => simp at hlen1
        | cons a l => exact ⟨a, l, rfl⟩
      obtain ⟨c2, t2, hc2⟩ : ∃ a l, u2 = a :: l := by
        cases u2 with
        | nil => simp at hlen2
        | cons a l => exact ⟨a, l, rfl⟩
      have hflen : 36 + post.length ≤ f := by
        simp only [List.length_append, hlen1] at hf
        omega
      have hglen : 36 + post.length ≤ g := by
        simp only [List.length_append, hlen2] at hg
        omega
      obtain ⟨f1, rfl⟩ : ∃ f1, f = f1 + 1 := ⟨f - 1, by omega⟩
      obtain ⟨g1, rfl⟩ : ∃ g1, g = g1 + 1 := ⟨g - 1, by omega⟩
      have hm1 : matchUUID (c1 :: (t1 ++ post)) = some post := by
        have h0 := hrep1 post
        rw [hc1] at h0
        simpa [List.cons_append] using h0
      have hm2 : matchUUID (c2 :: (t2 ++ post)) = some post := by
        have h0 := hrep2 post
        rw [hc2] at h0
        simpa [List.cons_append] using h0
      rw [hc1, hc2]
      simp only [List.cons_append]
      rw [replaceUUIDF_step_match f1 c1 (t1 ++ post) post hm1,
        replaceUUIDF_step_match g1 c2 (t2 ++ post) post hm2,
        replaceUUIDF_fuel post.length post (le_refl _) f1 g1 (by omega) (by omega)]
    | cons p ps =>
      have hplen : ps.length + 1 ≤ bound := by simpa using hpre
      have hflen : ps.length + 1 + 36 + post.length ≤ f := by
        simp only [List.length_append, List.length_cons, hlen1] at hf
        omega
      have hglen : ps.length + 1 + 36 + post.length ≤ g := by
        simp only [List.length_append, List.length_cons, hlen2] at hg
        omega
      obtain ⟨f1, rfl⟩ : ∃ f1, f = f1 + 1 := ⟨f - 1, by omega⟩
      obtain ⟨g1, rfl⟩ : ∃ g1, g = g1 + 1 := ⟨g - 1, by omega⟩
      simp only [List.cons_append]
      cases hm : matchUUID (p :: (ps ++ (u1 ++ post))) with
      | some r =>
        have hm' : matchUUID ((p :: ps) ++ (u1 ++ post)) = some r := by
          simpa [List.cons_append] using hm
        obtain ⟨h37, hr, hall⟩ := matchUUID_pre_steal (p :: ps) (u1 ++ post) r
          (by simp) hlast hm'
        have hm2 : matchUUID (p :: (ps ++ (u2 ++ post)))
            = some ((p :: ps).drop 36 ++ (u2 ++ post)) := by
          have h0 := hall (u2 ++ post)
          simpa [List.cons_append] using h0
        have hlen37 : 37 ≤ ps.length + 1 := by simpa using h37
        have hdrop_len : ((p :: ps).drop 36).length = ps.length + 1 - 36 := by
          simp [List.length_drop]
        have hdrop_ne : (p :: ps).drop 36 ≠ [] := by
          intro he
          have h0 := congrArg List.length he
          rw [hdrop_len] at h0
          simp at h0
          omega
        have hlast' : ((p :: ps).drop 36).getLast?.all
            (fun c => ¬ (isHexChar c ∨ c = '-')) = true := by
          have hsplit : (p :: ps).getLast? = ((p :: ps).drop 36).getLast? := by
            conv_lhs => rw [← List.take_append_drop 36 (p :: ps)]
            exact List.getLast?_append_of_ne_nil _ hdrop_ne
          rw [← hsplit]
          exact hlast
        rw [replaceUUIDF_step_match f1 p (ps ++ (u1 ++ post)) r hm,
          replaceUUIDF_step_match g1 p (ps ++ (u2 ++ post)) _ hm2, hr,
          ih ((p :: ps).drop 36).length (by omega) ((p :: ps).drop 36)
            (le_refl _) f1 g1 post
            (by simp only [List.length_append, hlen1, hdrop_len]; omega)
            (by simp only [List.length_append, hlen2, hdrop_len]; omega)
            hlast']
      | none =>
        have hm2 : matchUUID (p :: (ps ++ (u2 ++ post))) = none := by
          cases hm2' : matchUUID ((p :: ps) ++ (u2 ++ post)) with
          | none => simpa [List.cons_append] using hm2'
          | some r2 =>
            exfalso
            obtain ⟨-, -, hall⟩ := matchUUID_pre_steal (p :: ps) (u2 ++ post) r2
              (by simp) hlast hm2'
            have h0 := hall (u1 ++ post)
            simp only [List.cons_append] at h0
            rw [hm] at h0
            exact Option.noConfusion h0
        have hlast' : ps.getLast?.all (fun c => ¬ (isHexChar c ∨ c = '-')) = true := by
          cases ps with
          | nil => simp
          | cons q qs =>
            rw [← List.getLast?_cons_cons]
            exact hlast
        rw [replaceUUIDF_step_skip f1 p (ps ++ (u1 ++ post)) hm,
          replaceUUIDF_step_skip g1 p (ps ++ (u2 ++ post)) hm2,
          ih ps.length (by omega) ps (le_refl _) f1 g1 post
            (by simp only [List.length_append, hlen1]; omega)
            (by simp only [List.length_append, hlen2]; omega)
            hlast']

/-- Two messages whose texts agree after UUID replacement except for one
whole-word digit run normalise identically: the number substitution maps
both to the same string, and the remaining five substitutions then act on
equal inputs. -/
theorem normalizeMessage_agree (m1 m2 : String) (pre post d1 d2 : List Char)
    (hd1 : d1 ≠ []) (hd1d : ∀ c ∈ d1, Char.isDigit c = true)
    (hd2 : d2 ≠ []) (hd2d : ∀ c ∈ d2, Char.isDigit c = true)
    (hpre : pre.getLast?.all (fun c => ¬ isWordChar c) = true)
    (hpost : notWordAhead post = true)
    (hu1 : replaceUUIDF m1.toList.length m1.toList = pre ++ d1 ++ post)
    (hu2 : replaceUUIDF m2.toList.length m2.toList = pre ++ d2 ++ post) :
    normalizeMessage m1 = normalizeMessage m2 := by
  have key := replaceNumsF_agree d1 d2 post hd1 hd1d hd2 hd2d hpost
    pre.length pre (le_refl _) (pre ++ d1 ++ post).length
    (pre ++ d2 ++ post).length false (le_refl _) (le_refl _)
    (fun _ => rfl) hpre
  simp only [normalizeMessage]
  rw [hu1, hu2, key]

/-- Two messages that agree except for one embedded UUID (the prefix
before it not ending in a hex digit or dash) normalise identically: the
UUID substitution maps both to the same string, and the remaining six
substitutions then act on equal inputs. -/
theorem normalizeMessage_agree_uuid (m1 m2 : String) (pre post u1 u2 : List Char)
    (hw1 : matchUUID u1 = some []) (hw2 : matchUUID u2 = some [])
    (hpre : pre.getLast?.all (fun c => ¬ (isHexChar c ∨ c = '-')) = true)
    (hv1 : m1.toList = pre ++ (u1 ++ post))
    (hv2 : m2.toList = pre ++ (u2 ++ post)) :
    normalizeMessage m1 = normalizeMessage m2 := by
  have key : replaceUUIDF m1.toList.length m1.toList
      = replaceUUIDF m2.toList.length m2.toList := by
    rw [hv1, hv2]
    exact replaceUUIDF_agree u1 u2 hw1 hw2 pre.length pre (le_refl _)
      (pre ++ (u1 ++ post)).length (pre ++ (u2 ++ post)).length post
      (le_refl _) (le_refl _) hpre
  simp only [normalizeMessage]
  rw [key]

/-- C5 (amended): (a) two errors with the same type name, identical
stacks and no override, whose messages differ only in one whole-word
embedded digit run (after the preceding UUID substitution), or only in
one embedded UUID (the prefix before it not ending in a hex digit or
dash), receive the same fingerprint; (b) two errors with different
nonempty type names but identical messages and stacks build different
pre-hash composite keys (the 32-bit hashes of those keys may still
collide, so the rendered fingerprints themselves are not guaranteed
distinct). -/
theorem C5_fingerprint_stability
    (e1 e2 f1 f2 : JsError) (ev : ErrorEvent)
    (hname : e1.name = e2.name) (hstack : e1.stack = e2.stack)
    (hdiff :
      (∃ pre post d1 d2 : List Char,
        d1 ≠ [] ∧ (∀ c ∈ d1, Char.isDigit c = true)
        ∧ d2 ≠ [] ∧ (∀ c ∈ d2, Char.isDigit c = true)
        ∧ pre.getLast?.all (fun c => ¬ isWordChar c) = true
        ∧ notWordAhead post = true
        ∧ replaceUUIDF e1.message.toList.length e1.message.toList
            = pre ++ d1 ++ post
        ∧ replaceUUIDF e2.message.toList.length e2.message.toList
            = pre ++ d2 ++ post)
      ∨ (∃ pre post u1 u2 : List Char,
        matchUUID u1 = some [] ∧ matchUUID u2 = some []
        ∧ pre.getLast?.all (fun c => ¬ (isHexChar c ∨ c = '-')) = true
        ∧ e1.message.toList = pre ++ (u1 ++ post)
        ∧ e2.message.toList = pre ++ (u2 ++ post)))
    (hfname1 : ¬ f1.name = "") (hfname2 : ¬ f2.name = "")
    (hfne : f1.name ≠ f2.name)
    (hfmsg : f1.message = f2.message) (hfstack : f1.stack = f2.stack) :
    generateFingerprint e1 ev none = generateFingerprint e2 ev none
    ∧ fingerprintKey f1 none ≠ fingerprintKey f2 none := by
  constructor
  · have hmsg : normalizeMessage e1.message = normalizeMessage e2.message := by
      rcases hdiff with ⟨pre, post, d1, d2, hd1, hd1d, hd2, hd2d, hpre, hpost, hv1, hv2⟩
        | ⟨pre, post, u1, u2, hw1, hw2, hpre, hv1, hv2⟩
      · exact normalizeMessage_agree e1.message e2.message pre post d1 d2
          hd1 hd1d hd2 hd2d hpre hpost hv1 hv2
      · exact normalizeMessage_agree_uuid e1.message e2.message pre post u1 u2
          hw1 hw2 hpre hv1 hv2
    have hparts : fingerprintParts e1 none = fingerprintParts e2 none := by
      unfold fingerprintParts
      rw [hname, hstack, hmsg]
    show hashString (fingerprintKey e1 none) = hashString (fingerprintKey e2 none)
    unfold fingerprintKey
    rw [hparts]
  · intro h
    unfold fingerprintKey fingerprintParts at h
    rw [hfmsg, hfstack, if_neg hfname1, if_neg hfname2] at h
    simp only [List.cons_append, List.nil_append, List.singleton_append,
      joinBar] at h
    have hdata := congrArg String.data h
    simp only [String.data_append, List.append_assoc] at hdata
    have hlen : f1.name.data.length = f2.name.data.length := by
      have := congrArg List.length hdata
      simp only [List.length_append] at this
      omega
    exact hfne (String.ext (List.append_inj hdata hlen).1)

/-- Concrete runs of the amended C5: `TypeError` with messages differing
in the embedded ids 123 vs 4567, and `TypeError` with messages differing
only in an embedded UUID, each collide on one fingerprint; errors with
distinct type names but identical messages and no stack build different
composite keys. -/
theorem C5_fingerprint_stability_witness :
    (generateFingerprint ⟨"TypeError", "User 123 not found", none⟩ ⟨"e", 0⟩ none
      = generateFingerprint ⟨"TypeError", "User 4567 not found", none⟩ ⟨"e", 0⟩ none
    ∧ fingerprintKey ⟨"TypeError", "boom", none⟩ none
      ≠ fingerprintKey ⟨"RangeError", "boom", none⟩ none)
    ∧ (generateFingerprint
        ⟨"TypeError", "req 550e8400-e29b-41d4-a716-446655440000 failed", none⟩
        ⟨"e", 0⟩ none
      = generateFingerprint
        ⟨"TypeError", "req 123e4567-e89b-12d3-a456-426614174000 failed", none⟩
        ⟨"e", 0⟩ none
    ∧ fingerprintKey ⟨"SyntaxError", "boom", none⟩ none
      ≠ fingerprintKey ⟨"RangeError", "boom", none⟩ none) :=
  ⟨C5_fingerprint_stability
      ⟨"TypeError", "User 123 not found", none⟩
      ⟨"TypeError", "User 4567 not found", none⟩
      ⟨"TypeError", "boom", none⟩ ⟨"RangeError", "boom", none⟩ ⟨"e", 0⟩
      rfl rfl
      (Or.inl ⟨("User ").toList, (" not found").toList, ("123").toList,
        ("4567").toList, by decide, by decide, by decide, by decide,
        by decide, by decide, by decide, by decide⟩)
      (by decide) (by decide) (by decide) rfl rfl,
   C5_fingerprint_stability
      ⟨"TypeError", "req 550e8400-e29b-41d4-a716-446655440000 failed", none⟩
      ⟨"TypeError", "req 123e4567-e89b-12d3-a456-426614174000 failed", none⟩
      ⟨"SyntaxError", "boom", none⟩ ⟨"RangeError", "boom", none⟩ ⟨"e", 0⟩
      rfl rfl
      (Or.inr ⟨("req ").toList, (" failed").toList,
        ("550e8400-e29b-41d4-a716-446655440000").toList,
        ("123e4567-e89b-12d3-a456-426614174000").toList,
        by decide, by decide, by decide, by decide, by decide⟩)
      (by decide) (by decide) (by decide) rfl rfl⟩

/-- C5 counterexample: the claim that different error type names always
yield different fingerprints fails — the 32-bit djb2 hash states of the
names `ErrAABc` and `ErrAACB` collide, so two errors differing only in
these names get the same fingerprint. -/
theorem C5_counterexample :
    generateFingerprint ⟨"ErrAABc", "x", none⟩ ⟨"e", 0⟩ none
      = generateFingerprint ⟨"ErrAACB", "x", none⟩ ⟨"e", 0⟩ none
    ∧ ("ErrAABc" : String) ≠ ("ErrAACB" : String) := by
  constructor
  · decide
  · decide

/-- Concrete run of the amended C2: a directly self-referencing object
under the default sanitizer carries the depth marker in its output. -/
theorem C2_cycle_terminates_witness :
    containsStrB 11 ("[Max Depth Reached]")
      ((⟨true, [], "[REDACTED]"⟩ : DataSanitizer).sanitizeH
        (fun _ => HNode.hobj [("self", 0)]) 0 10) = true :=
  C2_cycle_terminates ⟨true, [], "[REDACTED]"⟩ (fun _ => HNode.hobj [("self", 0)])
    (fun _ => 0) (fun _ => "self")
    (fun _ => ⟨[("self", 0)], rfl, by simp, by
      show (⟨true, [], "[REDACTED]"⟩ : DataSanitizer).shouldRedact ("self") = false
      decide⟩) 10
